import Mathlib

/-!
Verification of the time-series range cache and counterfactual trade-replay
engine of the `future-web` repository.

Embedding conventions:
* JS numbers are modelled as `ℚ` (prices, quantities, pnl) and instants as `ℤ`
  milliseconds.  Every time comparison in the source first converts an ISO
  string with `new Date(s).getTime()`; the embedding works directly with the
  millisecond value, so string timestamps become `ℤ` fields.  (For same-format
  ISO strings lexicographic order coincides with chronological order, which is
  what the one string-level comparison in the source relies on.)
* `Date.now()` is passed explicitly as a `now : ℤ` parameter; it is read once
  per synchronous operation.
* A JS `Map` is modelled as an association list in insertion order
  (`Map.set` of a fresh key appends, of an existing key updates in place;
  iteration follows that order).
* The Bar Store Client (`cryptoApi.listKlines`) is an oracle
  `fetch : FetchReq → Except Unit (List KlineData)`; a rejected promise is
  `Except.error`.  Every call issued to the client is recorded in a log so
  that "performs N client calls" is a statement about the log.
* Fields of source records that are never read by the functions under
  verification (volume, trades, taker volumes, …) are omitted.
-/

/-- One OHLCV sample (`KlineData` in `src/lib/kline-cache.ts`); only the fields
read by the cache and the simulation engines are kept. -/
structure KlineData where
  openTime : ℤ
  closeTime : ℤ
  open_ : ℚ
  high : ℚ
  low : ℚ
  close : ℚ
  deriving DecidableEq, Repr

/-- A cached range (`CacheEntry` in the source): the bars, the instant the
entry was written, and the declared `[startTime, endTime]` range. -/
structure CacheEntry where
  data : List KlineData
  cachedAt : ℤ
  startTime : ℤ
  endTime : ℤ
  deriving DecidableEq, Repr

/-- The decomposed cache key (`CacheKey` in the source) after the
`exchange/market` defaults have been applied. -/
structure CacheKey where
  symbol : String
  exchange : String
  market : String
  interval : String
  startTime : ℤ
  endTime : ℤ
  deriving DecidableEq, Repr

/-- A request issued to the Bar Store Client (`fetchKlines` always passes
`order: "asc"`, so the order field is omitted). -/
structure FetchReq where
  symbol : String
  exchange : String
  market : String
  interval : String
  startTime : ℤ
  endTime : ℤ
  deriving DecidableEq, Repr

/-- Requested bar ordering (`order?: "asc" | "desc"`). -/
inductive BarOrder where
  | asc
  | desc
  deriving DecidableEq, Repr

/-- Parameters of `getKlines`. -/
structure GetKlinesParams where
  symbol : String
  exchange : Option String
  market : Option String
  interval : String
  startTime : ℤ
  endTime : ℤ
  order : Option BarOrder
  deriving DecidableEq, Repr

/-- Parameters of `extendTimeRange`. -/
structure ExtendParams where
  symbol : String
  exchange : Option String
  market : Option String
  interval : String
  newStartTime : ℤ
  newEndTime : ℤ
  deriving DecidableEq, Repr

/-- Mutable state of the `KlineCacheService` singleton together with the log of
Bar Store Client calls issued so far (newest last).  `inflight` models the
`inflightRequests` key set. -/
structure Sys where
  cache : List (String × CacheEntry)
  inflight : List String
  log : List FetchReq
  deriving DecidableEq, Repr

/-- `CACHE_TTL_1M = 5 * 60 * 1000`. -/
def CACHE_TTL_1M : ℤ := 5 * 60 * 1000

/-- `CACHE_TTL_OTHER = 30 * 60 * 1000`. -/
def CACHE_TTL_OTHER : ℤ := 30 * 60 * 1000

/-- `MAX_CACHE_ENTRIES = 1000`. -/
def MAX_CACHE_ENTRIES : ℕ := 1000

/-- The TTL chosen everywhere in the source:
`interval === "1m" ? CACHE_TTL_1M : CACHE_TTL_OTHER`. -/
def cacheTTL (interval : String) : ℤ :=
  if interval = "1m" then CACHE_TTL_1M else CACHE_TTL_OTHER

/-- JS `str.split(":")` on a list of characters (split at every occurrence of
the delimiter, no escaping). -/
def splitColonAux (cur : List Char) : List Char → List (List Char)
  | [] => [cur.reverse]
  | c :: cs =>
    if c = ':' then cur.reverse :: splitColonAux [] cs
    else splitColonAux (c :: cur) cs

/-- JS `key.split(":")`; `String.splitOn` is not used because the embedding
needs a definition the kernel can evaluate on literals. -/
def splitColon (s : String) : List String :=
  (splitColonAux [] s.data).map String.mk

/-- `generateCacheKey`: colon-joined composite key string. -/
def generateCacheKey (p : CacheKey) : String :=
  p.exchange ++ ":" ++ p.market ++ ":" ++ p.symbol ++ ":" ++ p.interval ++ ":"
    ++ toString p.startTime ++ ":" ++ toString p.endTime

/-- `isCacheValid`: the entry's age is strictly below its interval TTL. -/
def isCacheValid (now : ℤ) (entry : CacheEntry) (interval : String) : Bool :=
  now - entry.cachedAt < cacheTTL interval

/-- JS `Map.prototype.set`: update in place when the key exists, else append. -/
def mapSet (m : List (String × CacheEntry)) (k : String) (v : CacheEntry) :
    List (String × CacheEntry) :=
  if m.any (fun p => p.1 = k) then
    m.map (fun p => if p.1 = k then (k, v) else p)
  else
    m ++ [(k, v)]

/-- JS `Map.prototype.get`: first (and in a real `Map`, only) binding. -/
def mapGet (m : List (String × CacheEntry)) (k : String) : Option CacheEntry :=
  (m.find? (fun p => p.1 = k)).map Prod.snd

/-- Filtering a bar list to open times within `[startTime, endTime]`; this
exact filter recurs throughout the cache service. -/
def filterRange (startTime endTime : ℤ) (data : List KlineData) : List KlineData :=
  data.filter (fun k => startTime ≤ k.openTime ∧ k.openTime ≤ endTime)

/-- `findCachedData`: scan all entries in map order; skip invalid entries and
entries of another series; on the first entry whose declared range contains the
requested range, return its bars filtered to open times within the request. -/
def findCachedData (now : ℤ) (p : CacheKey) :
    List (String × CacheEntry) → Option (List KlineData)
  | [] => none
  | (key, entry) :: rest =>
    if !isCacheValid now entry p.interval then findCachedData now p rest
    else
      let keyParts := splitColon key
      if keyParts.getD 0 "" ≠ p.exchange ∨ keyParts.getD 1 "" ≠ p.market ∨
          keyParts.getD 2 "" ≠ p.symbol ∨ keyParts.getD 3 "" ≠ p.interval then
        findCachedData now p rest
      else if entry.startTime ≤ p.startTime ∧ p.endTime ≤ entry.endTime then
        some (filterRange p.startTime p.endTime entry.data)
      else
        findCachedData now p rest

/-- `cleanExpiredCache`: delete every entry whose age strictly exceeds the TTL
derived from the interval part of its key. -/
def cleanExpiredCache (now : ℤ) (cache : List (String × CacheEntry)) :
    List (String × CacheEntry) :=
  cache.filter (fun ke =>
    !(cacheTTL ((splitColon ke.1).getD 3 "") < now - ke.2.cachedAt))

/-- The eviction priority score of one entry:
`(expired ? 1000 : 0) + data.length / 1000 + ageMinutes`. -/
def priorityOf (now : ℤ) (key : String) (entry : CacheEntry) : ℚ :=
  let interval := (splitColon key).getD 3 ""
  let isExpired := cacheTTL interval < now - entry.cachedAt
  (if isExpired then 1000 else 0) + (entry.data.length : ℚ) / 1000
    + ((now : ℚ) - (entry.cachedAt : ℚ)) / (1000 * 60)

/-- `limitCacheSize`: when the entry count exceeds `MAX_CACHE_ENTRIES`, score
every entry, sort descending by score (JS `Array.prototype.sort` is stable) and
delete the `count - MAX_CACHE_ENTRIES` highest-scoring keys from the map
(`Map` keys are unique, so the batch of deletions is a single filter). -/
def limitCacheSize (now : ℤ) (cache : List (String × CacheEntry)) :
    List (String × CacheEntry) :=
  if cache.length ≤ MAX_CACHE_ENTRIES then cache
  else
    let scored := cache.map (fun ke => (ke, priorityOf now ke.1 ke.2))
    let sorted := scored.mergeSort (fun a b => decide (b.2 ≤ a.2))
    let toDelete := (sorted.take (cache.length - MAX_CACHE_ENTRIES)).map
      (fun x => x.1.1)
    cache.filter (fun ke => !toDelete.contains ke.1)

/-- The `CacheKey` built at the top of `getKlines`, with the
`exchange || "binance"` and `market || "futures"` defaults. -/
def cacheParamsOf (p : GetKlinesParams) : CacheKey :=
  { symbol := p.symbol
    exchange := p.exchange.getD "binance"
    market := p.market.getD "futures"
    interval := p.interval
    startTime := p.startTime
    endTime := p.endTime }

/-- The Bar Store request built by `fetchKlines` (always ascending). -/
def fetchReqOf (cp : CacheKey) : FetchReq :=
  { symbol := cp.symbol
    exchange := cp.exchange
    market := cp.market
    interval := cp.interval
    startTime := cp.startTime
    endTime := cp.endTime }

/-- `params.order === "desc" ? data.reverse() : data`. -/
def applyOrder (o : Option BarOrder) (data : List KlineData) : List KlineData :=
  if o = some BarOrder.desc then data.reverse else data

/-- `getKlines`: serve from a containing valid entry when possible; otherwise
await an identical in-flight request if one exists (sharing its response,
issuing no call and writing nothing); otherwise call the Bar Store Client,
and on success insert the entry (`cachedAt = now`) and run
`cleanExpiredCache` and `limitCacheSize` before returning.  A rejected fetch
propagates (there is no `catch`); the entry is not inserted.  The transient
`inflightRequests` set/delete pair of the fetching caller cancels out within
the synchronous scope modelled here, so `inflight` is returned unchanged. -/
def getKlines (now : ℤ) (fetch : FetchReq → Except Unit (List KlineData))
    (sys : Sys) (p : GetKlinesParams) :
    Except Unit (List KlineData) × Sys :=
  let cp := cacheParamsOf p
  let cacheKey := generateCacheKey cp
  match findCachedData now cp sys.cache with
  | some cachedData => (.ok (applyOrder p.order cachedData), sys)
  | none =>
    if sys.inflight.contains cacheKey then
      match fetch (fetchReqOf cp) with
      | .ok data => (.ok (applyOrder p.order data), sys)
      | .error e => (.error e, sys)
    else
      let req := fetchReqOf cp
      match fetch req with
      | .error e => (.error e, { sys with log := sys.log ++ [req] })
      | .ok data =>
        let inserted := mapSet sys.cache cacheKey
          { data := data, cachedAt := now,
            startTime := p.startTime, endTime := p.endTime }
        let cleaned := limitCacheSize now (cleanExpiredCache now inserted)
        (.ok (applyOrder p.order data),
          { sys with cache := cleaned, log := sys.log ++ [req] })

/-- Stable ascending sort by open time
(`sort((a, b) => a.openTime - b.openTime)`). -/
def sortByOpenTime (data : List KlineData) : List KlineData :=
  data.mergeSort (fun a b => decide (a.openTime ≤ b.openTime))

/-- De-duplication by open time keeping the first occurrence
(`filter((item, i, arr) => i === 0 || item.openTime !== arr[i-1].openTime)`
on a list already sorted by open time). -/
def dedupeByOpenTime : List KlineData → List KlineData
  | [] => []
  | [a] => [a]
  | a :: b :: rest =>
    if b.openTime = a.openTime then dedupeByOpenTime (a :: rest)
    else a :: dedupeByOpenTime (b :: rest)

/-- The overlap scan at the top of `extendTimeRange`: first valid entry of the
series whose `[startTime, endTime]` intersects `[newStart, newEnd]`, yielding
`(existingData, existingStart, existingEnd)`. -/
def findOverlapping (now : ℤ) (exchange market symbol interval : String)
    (newStart newEnd : ℤ) :
    List (String × CacheEntry) → Option (List KlineData × ℤ × ℤ)
  | [] => none
  | (key, entry) :: rest =>
    if !isCacheValid now entry interval then
      findOverlapping now exchange market symbol interval newStart newEnd rest
    else
      let keyParts := splitColon key
      if keyParts.getD 0 "" = exchange ∧ keyParts.getD 1 "" = market ∧
          keyParts.getD 2 "" = symbol ∧ keyParts.getD 3 "" = interval then
        if newStart ≤ entry.endTime ∧ entry.startTime ≤ newEnd then
          some (entry.data, entry.startTime, entry.endTime)
        else
          findOverlapping now exchange market symbol interval newStart newEnd rest
      else
        findOverlapping now exchange market symbol interval newStart newEnd rest

/-- `extendTimeRange`: locate an overlapping valid entry of the series; fetch
the missing head segment `[newStart, existingStart - 1]` and/or tail segment
`[existingEnd + 1, newEnd]` through `getKlines`; when neither is missing,
return the existing bars filtered to the requested range.  Otherwise merge
(existing ++ fetched, sorted ascending by open time, de-duplicated by open
time keeping the first occurrence), store the merged bars as a single entry
keyed by the new range — with no eviction housekeeping afterwards — and return
the merged bars restricted to the range.  In JS both segment promises are
started before `Promise.all`, so both side effects happen even if one
rejects; the rejection then propagates. -/
def extendTimeRange (now : ℤ) (fetch : FetchReq → Except Unit (List KlineData))
    (sys : Sys) (p : ExtendParams) :
    Except Unit (List KlineData) × Sys :=
  let exchange := p.exchange.getD "binance"
  let market := p.market.getD "futures"
  let found := findOverlapping now exchange market p.symbol p.interval
    p.newStartTime p.newEndTime sys.cache
  let existingData := (found.map (fun x => x.1)).getD []
  let existingStart := (found.map (fun x => x.2.1)).getD p.newStartTime
  let existingEnd := (found.map (fun x => x.2.2)).getD p.newEndTime
  let needHead := p.newStartTime < existingStart
  let needTail := existingEnd < p.newEndTime
  if ¬needHead ∧ ¬needTail then
    (.ok (filterRange p.newStartTime p.newEndTime existingData), sys)
  else
    let headOut :=
      if needHead then
        getKlines now fetch sys
          { symbol := p.symbol, exchange := some exchange, market := some market,
            interval := p.interval, startTime := p.newStartTime,
            endTime := existingStart - 1, order := none }
      else (.ok [], sys)
    let tailOut :=
      if needTail then
        getKlines now fetch headOut.2
          { symbol := p.symbol, exchange := some exchange, market := some market,
            interval := p.interval, startTime := existingEnd + 1,
            endTime := p.newEndTime, order := none }
      else (.ok [], headOut.2)
    match headOut.1, tailOut.1 with
    | .ok headData, .ok tailData =>
      let allData := sortByOpenTime (existingData ++ headData ++ tailData)
      let uniqueData := dedupeByOpenTime allData
      let cacheKey := generateCacheKey
        { symbol := p.symbol, exchange := exchange, market := market,
          interval := p.interval, startTime := p.newStartTime,
          endTime := p.newEndTime }
      let newEntry : CacheEntry :=
        { data := uniqueData, cachedAt := now,
          startTime := p.newStartTime, endTime := p.newEndTime }
      (.ok (filterRange p.newStartTime p.newEndTime uniqueData),
        { tailOut.2 with cache := mapSet tailOut.2.cache cacheKey newEntry })
    | .error e, _ => (.error e, tailOut.2)
    | _, .error e => (.error e, tailOut.2)

/-- Modelled from the spec: the Offline Gate.  The offline-capable variant of
the cache service is not under `src/` — `kline-debugger.tsx` calls
`setOfflineMode`, `isOfflineMode` and reads `offlineMode` from the cache
stats, none of which exist in `src/src/lib/kline-cache.ts`.  Spec §4.1 step 2:
for every entry of the series whose range intersects the request (regardless
of full containment), take the intersection segment, concatenate, and sort
ascending by open time. -/
def unionOfOverlaps (cache : List (String × CacheEntry)) (cp : CacheKey) :
    List KlineData :=
  sortByOpenTime ((cache.filterMap (fun ke =>
    let keyParts := splitColon ke.1
    if (keyParts.getD 0 "" = cp.exchange ∧ keyParts.getD 1 "" = cp.market ∧
        keyParts.getD 2 "" = cp.symbol ∧ keyParts.getD 3 "" = cp.interval) ∧
        ke.2.startTime ≤ cp.endTime ∧ cp.startTime ≤ ke.2.endTime then
      some (filterRange cp.startTime cp.endTime ke.2.data)
    else none)).flatten)

/-- Modelled from the spec: `getKlines` with the Offline Gate (spec §4.1).
Step 1 (containment, from the `src/` code) is unchanged; when it misses and
the gate is enabled, the union of overlaps is returned and no fetch is
attempted; when the gate is disabled the online path is the `src/`
`getKlines`. -/
def getKlinesGated (offline : Bool) (now : ℤ)
    (fetch : FetchReq → Except Unit (List KlineData))
    (sys : Sys) (p : GetKlinesParams) :
    Except Unit (List KlineData) × Sys :=
  let cp := cacheParamsOf p
  match findCachedData now cp sys.cache with
  | some cachedData => (.ok (applyOrder p.order cachedData), sys)
  | none =>
    if offline then (.ok (unionOfOverlaps sys.cache cp), sys)
    else getKlines now fetch sys p

/-- Modelled from the spec: `extendTimeRange` with the Offline Gate (spec §4.4
step 5) — in offline mode the head/tail fetches are skipped entirely and the
result is the intersection of the existing bars with the new range. -/
def extendTimeRangeGated (offline : Bool) (now : ℤ)
    (fetch : FetchReq → Except Unit (List KlineData))
    (sys : Sys) (p : ExtendParams) :
    Except Unit (List KlineData) × Sys :=
  if offline then
    let exchange := p.exchange.getD "binance"
    let market := p.market.getD "futures"
    let found := findOverlapping now exchange market p.symbol p.interval
      p.newStartTime p.newEndTime sys.cache
    let existingData := (found.map (fun x => x.1)).getD []
    (.ok (filterRange p.newStartTime p.newEndTime existingData), sys)
  else extendTimeRange now fetch sys p

/-- What one caller's synchronous prefix of `getKlines` (everything up to the
first `await`, lines 224–241 of the source) does: it either gets served from
cache, joins an identical in-flight request, or registers itself and issues
the one fetch.  On the JS event loop this prefix runs atomically. -/
inductive CallerRole where
  | servedFromCache
  | awaitingInflight
  | fetching
  deriving DecidableEq, Repr

/-- The synchronous prefix of `getKlines` as a state transition, used for the
concurrency claim: the cache check, the in-flight check, and — only for the
first caller of a key — starting the fetch and registering it in-flight. -/
def startCall (now : ℤ) (sys : Sys) (p : GetKlinesParams) : CallerRole × Sys :=
  let cp := cacheParamsOf p
  let cacheKey := generateCacheKey cp
  match findCachedData now cp sys.cache with
  | some _ => (.servedFromCache, sys)
  | none =>
    if sys.inflight.contains cacheKey then (.awaitingInflight, sys)
    else
      (.fetching,
        { sys with inflight := sys.inflight ++ [cacheKey],
                   log := sys.log ++ [fetchReqOf cp] })

/-- `n` concurrent callers of the same key interleaved on the event loop:
each runs its synchronous prefix in turn; the roles are collected. -/
def startCalls (now : ℤ) (sys : Sys) (p : GetKlinesParams) :
    ℕ → List CallerRole × Sys
  | 0 => ([], sys)
  | n + 1 =>
    let first := startCall now sys p
    let rest := startCalls now first.2 p n
    (first.1 :: rest.1, rest.2)

/-- `"LONG" | "SHORT"`. -/
inductive PositionSide where
  | LONG
  | SHORT
  deriving DecidableEq, Repr

namespace Worker

/-- One prepared round handed to the stop-loss worker (`PreparedMetric`).
The three typed arrays are optional `List`s; `openTime`/`closeTime` are kept
as instants (only copied into details; the worker never compares them —
`closeTimeMs` is computed but unused, the scan runs over all bars). -/
structure PreparedMetric where
  roundId : String
  symbol : String
  positionSide : PositionSide
  entryPrice : ℚ
  exitPrice : ℚ
  quantity : ℚ
  realizedPnl : ℚ
  openTime : ℤ
  closeTime : ℤ
  maxDrawdownRate : ℚ
  earlyFirstOpenPrice : Option ℚ
  earlyFirstOpenQty : Option ℚ
  earlyDrawdownRate : Option ℚ
  klineHighs : Option (List ℚ)
  klineLows : Option (List ℚ)
  klineTimestamps : Option (List ℤ)
  deriving DecidableEq, Repr

/-- Per-trade simulation outcome (`TradeDetail` of the worker module). -/
structure TradeDetail where
  roundId : String
  symbol : String
  positionSide : PositionSide
  entryPrice : ℚ
  exitPrice : ℚ
  quantity : ℚ
  finalPrice : ℚ
  pnlAmount : ℚ
  pnlRate : ℚ
  wouldHitStopLoss : Bool
  maxDrawdownRate : ℚ
  openTime : ℤ
  closeTime : ℤ
  deriving DecidableEq, Repr

/-- The guard of the worker's early-stop branch: all three early fields are
present and `earlyDrawdownRate <= percentage`. -/
def earlyGuard (percentage : ℚ) (m : PreparedMetric) : Bool :=
  match m.earlyDrawdownRate, m.earlyFirstOpenPrice, m.earlyFirstOpenQty with
  | some edr, some _, some _ => edr ≤ percentage
  | _, _, _ => false

/-- The worker's chronological scan: index `i` runs over the timestamps array;
a LONG round triggers when `lows[i] <= stopLossPrice`, a SHORT round when
`highs[i] >= stopLossPrice` (the guard has already checked that the three
arrays have equal positive length). -/
def pathTriggered (isLong : Bool) (stopLossPrice : ℚ)
    (lows highs : List ℚ) (n : ℕ) : Bool :=
  if isLong then
    (List.range n).any (fun i => decide (lows.getD i 0 ≤ stopLossPrice))
  else
    (List.range n).any (fun i => decide (stopLossPrice ≤ highs.getD i 0))

/-- The early-stop detail built by the worker (first fill's price and
quantity, exit at the first-fill stop price). -/
def earlyDetail (percentage : ℚ) (m : PreparedMetric)
    (firstPrice firstQty edr : ℚ) : TradeDetail :=
  let isLong := m.positionSide = PositionSide.LONG
  let firstStopPrice :=
    if isLong then firstPrice * (1 + percentage / 100)
    else firstPrice * (1 - percentage / 100)
  let pnlRateEarly :=
    if isLong then (firstStopPrice - firstPrice) / firstPrice * 100
    else (firstPrice - firstStopPrice) / firstPrice * 100
  let pnlAmountEarly := pnlRateEarly / 100 * (firstPrice * firstQty)
  { roundId := m.roundId, symbol := m.symbol, positionSide := m.positionSide
    entryPrice := firstPrice, exitPrice := m.exitPrice, quantity := firstQty
    finalPrice := firstStopPrice, pnlAmount := pnlAmountEarly
    pnlRate := pnlRateEarly, wouldHitStopLoss := true
    maxDrawdownRate := edr, openTime := m.openTime, closeTime := m.closeTime }

/-- The stop-hit detail of the worker's kline-path branch. -/
def stopDetail (percentage : ℚ) (m : PreparedMetric) : TradeDetail :=
  let isLong := m.positionSide = PositionSide.LONG
  let stopLossPrice :=
    if isLong then m.entryPrice * (1 + percentage / 100)
    else m.entryPrice * (1 - percentage / 100)
  let pnlRate :=
    if isLong then (stopLossPrice - m.entryPrice) / m.entryPrice * 100
    else (m.entryPrice - stopLossPrice) / m.entryPrice * 100
  let pnlAmount := pnlRate / 100 * (m.entryPrice * m.quantity)
  { roundId := m.roundId, symbol := m.symbol, positionSide := m.positionSide
    entryPrice := m.entryPrice, exitPrice := m.exitPrice, quantity := m.quantity
    finalPrice := stopLossPrice, pnlAmount := pnlAmount, pnlRate := pnlRate
    wouldHitStopLoss := true, maxDrawdownRate := m.maxDrawdownRate
    openTime := m.openTime, closeTime := m.closeTime }

/-- The "no stop or no trigger" detail: the original exit is used. -/
def originalDetail (m : PreparedMetric) : TradeDetail :=
  let isLong := m.positionSide = PositionSide.LONG
  let pnlRate :=
    if isLong then (m.exitPrice - m.entryPrice) / m.entryPrice * 100
    else (m.entryPrice - m.exitPrice) / m.entryPrice * 100
  let pnlAmount := pnlRate / 100 * (m.entryPrice * m.quantity)
  { roundId := m.roundId, symbol := m.symbol, positionSide := m.positionSide
    entryPrice := m.entryPrice, exitPrice := m.exitPrice, quantity := m.quantity
    finalPrice := m.exitPrice, pnlAmount := pnlAmount, pnlRate := pnlRate
    wouldHitStopLoss := false, maxDrawdownRate := m.maxDrawdownRate
    openTime := m.openTime, closeTime := m.closeTime }

/-- The loop body of `computeForLevel` for one metric.  `none` when the round
is skipped (`!entryPrice || !exitPrice || !quantity`).  `percentage === 0`
means "no stop loss" (mapped from `-999` upstream): both trigger branches are
bypassed.  The early-stop branch takes precedence over the kline-path scan. -/
def simulateMetric (percentage : ℚ) (m : PreparedMetric) : Option TradeDetail :=
  if m.entryPrice = 0 ∨ m.exitPrice = 0 ∨ m.quantity = 0 then none
  else if percentage = 0 then some (originalDetail m)
  else
    match m.earlyDrawdownRate, m.earlyFirstOpenPrice, m.earlyFirstOpenQty with
    | some edr, some firstPrice, some firstQty =>
      if edr ≤ percentage then some (earlyDetail percentage m firstPrice firstQty edr)
      else simulateMetricPath percentage m
    | _, _, _ => simulateMetricPath percentage m
where
  /-- The kline-path branch followed by the original-exit default. -/
  simulateMetricPath (percentage : ℚ) (m : PreparedMetric) : Option TradeDetail :=
    match m.klineLows, m.klineHighs, m.klineTimestamps with
    | some lows, some highs, some ts =>
      if lows.length = highs.length ∧ highs.length = ts.length ∧ 0 < lows.length
      then
        let isLong := m.positionSide = PositionSide.LONG
        let stopLossPrice :=
          if isLong then m.entryPrice * (1 + percentage / 100)
          else m.entryPrice * (1 - percentage / 100)
        if pathTriggered isLong stopLossPrice lows highs ts.length then
          some (stopDetail percentage m)
        else some (originalDetail m)
      else some (originalDetail m)
    | _, _, _ => some (originalDetail m)

/-- Running aggregation state of `computeForLevel`. -/
structure Acc where
  totalTrades : ℕ
  profitTrades : ℕ
  lossTrades : ℕ
  totalProfitAmount : ℚ
  totalLossAmount : ℚ
  totalNetProfit : ℚ
  profitTradeDetails : List TradeDetail
  lossTradeDetails : List TradeDetail
  deriving DecidableEq, Repr

/-- The empty aggregation state. -/
def Acc.init : Acc :=
  { totalTrades := 0, profitTrades := 0, lossTrades := 0
    totalProfitAmount := 0, totalLossAmount := 0, totalNetProfit := 0
    profitTradeDetails := [], lossTradeDetails := [] }

/-- How one produced detail is folded into the counters: `totalTrades` and
`totalNetProfit` always; strictly positive pnl into the profit side, strictly
negative into the loss side (absolute value), zero pnl into neither. -/
def Acc.step (acc : Acc) (d : TradeDetail) : Acc :=
  let acc1 := { acc with totalTrades := acc.totalTrades + 1,
                         totalNetProfit := acc.totalNetProfit + d.pnlAmount }
  if 0 < d.pnlAmount then
    { acc1 with profitTrades := acc1.profitTrades + 1,
                totalProfitAmount := acc1.totalProfitAmount + d.pnlAmount,
                profitTradeDetails := acc1.profitTradeDetails ++ [d] }
  else if d.pnlAmount < 0 then
    { acc1 with lossTrades := acc1.lossTrades + 1,
                totalLossAmount := acc1.totalLossAmount + |d.pnlAmount|,
                lossTradeDetails := acc1.lossTradeDetails ++ [d] }
  else acc1

/-- The whole metric loop of `computeForLevel`. -/
def computeAcc (percentage : ℚ) (metrics : List PreparedMetric) : Acc :=
  metrics.foldl (fun acc m =>
    match simulateMetric percentage m with
    | none => acc
    | some d => Acc.step acc d) Acc.init

/-- Per-level aggregate result (`RiskLevelResult`).  The source applies
`Number(x.toFixed(2))` display rounding to the rational aggregates; the
embedding keeps the exact pre-rounding values. -/
structure RiskLevelResult where
  percentage : ℚ
  totalProfit : ℚ
  totalProfitAmount : ℚ
  totalLossAmount : ℚ
  winRate : ℚ
  totalTrades : ℕ
  profitTrades : ℕ
  lossTrades : ℕ
  avgProfit : ℚ
  avgLoss : ℚ
  profitFactor : ℚ
  profitTradeDetails : List TradeDetail
  lossTradeDetails : List TradeDetail
  deriving DecidableEq, Repr

/-- `computeForLevel` of the stop-loss worker. -/
def computeForLevel (percentage : ℚ) (metrics : List PreparedMetric) :
    RiskLevelResult :=
  let acc := computeAcc percentage metrics
  let winRate :=
    if 0 < acc.totalTrades then (acc.profitTrades : ℚ) / acc.totalTrades * 100
    else 0
  let avgProfit :=
    if 0 < acc.profitTrades then acc.totalProfitAmount / acc.profitTrades else 0
  let avgLoss :=
    if 0 < acc.lossTrades then acc.totalLossAmount / acc.lossTrades else 0
  let profitFactor := if 0 < avgLoss then avgProfit / avgLoss else 0
  { percentage := percentage, totalProfit := acc.totalNetProfit
    totalProfitAmount := acc.totalProfitAmount
    totalLossAmount := acc.totalLossAmount
    winRate := winRate, totalTrades := acc.totalTrades
    profitTrades := acc.profitTrades, lossTrades := acc.lossTrades
    avgProfit := avgProfit, avgLoss := avgLoss, profitFactor := profitFactor
    profitTradeDetails := acc.profitTradeDetails
    lossTradeDetails := acc.lossTradeDetails }

end Worker

namespace Dialog

/-- One opening fill as returned by `getTradesByIds` (sorted by timestamp in
`getFirstTwoOpensOnce`). -/
structure Fill where
  price : ℚ
  quantity : ℚ
  timestamp : ℤ
  deriving DecidableEq, Repr

/-- One round from `listRoundPnl` as read by `calculateStopLoss`. -/
structure RoundTrade where
  roundId : String
  symbol : String
  positionSide : PositionSide
  totalQuantity : ℚ
  avgEntryPrice : ℚ
  avgExitPrice : ℚ
  realizedPnl : ℚ
  openTime : ℤ
  closeTime : ℤ
  openTradeIds : List String
  deriving DecidableEq, Repr

/-- Per-trade simulation outcome of the dialog (`TradeDetail` in
`stop-loss-dialog.tsx`; it additionally carries `originalPnlAmount`). -/
structure TradeDetail where
  roundId : String
  symbol : String
  positionSide : PositionSide
  entryPrice : ℚ
  exitPrice : ℚ
  quantity : ℚ
  finalPrice : ℚ
  pnlAmount : ℚ
  pnlRate : ℚ
  originalPnlAmount : ℚ
  wouldHitStopLoss : Bool
  maxDrawdownRate : ℚ
  openTime : ℤ
  closeTime : ℤ
  deriving DecidableEq, Repr

/-- `Math.min(...ks.map(k => k.low))`; only ever applied to nonempty lists in
the source (guarded by `length > 0`). -/
def minLowOf : List KlineData → ℚ
  | [] => 0
  | k :: ks => ks.foldl (fun a b => min a b.low) k.low

/-- `Math.max(...ks.map(k => k.high))`; only ever applied to nonempty lists. -/
def maxHighOf : List KlineData → ℚ
  | [] => 0
  | k :: ks => ks.foldl (fun a b => max a b.high) k.high

/-- The bars scanned for the early stop: open time at or after the first
fill's timestamp and close time at or before the second fill's timestamp
(the source compares the ISO strings, which for a common format agrees with
the millisecond order used here). -/
def betweenK (klines : List KlineData) (firstOpenTime secondOpenTime : ℤ) :
    List KlineData :=
  klines.filter (fun k =>
    firstOpenTime ≤ k.openTime ∧ k.closeTime ≤ secondOpenTime)

/-- The stop price derived from a reference price and the level. -/
def stopPriceFrom (isLong : Bool) (price percentage : ℚ) : ℚ :=
  if isLong then price * (1 + percentage / 100)
  else price * (1 - percentage / 100)

/-- `earlyHit`: some bar between the first two fills crosses the first-fill
stop price (`false` when no bar lies between them). -/
def earlyHitOn (isLong : Bool) (firstStopPrice : ℚ) (bk : List KlineData) :
    Bool :=
  if bk.isEmpty then false
  else if isLong then minLowOf bk ≤ firstStopPrice
  else firstStopPrice ≤ maxHighOf bk

/-- Whether the early-stop branch of the dialog fires for this round: at least
two opening trade ids, at least two fills fetched, and `earlyHit`. -/
def earlyFires (percentage : ℚ) (t : RoundTrade) (klines : List KlineData)
    (opens : List Fill) : Bool :=
  decide (2 ≤ t.openTradeIds.length) &&
    match opens with
    | f1 :: f2 :: _ =>
      let isLong := t.positionSide = PositionSide.LONG
      earlyHitOn isLong (stopPriceFrom isLong f1.price percentage)
        (betweenK klines f1.timestamp f2.timestamp)
    | _ => false

/-- The early-stop detail built by the dialog: exit at the first-fill stop
price with the first fill's price and quantity; `maxDrawdownRate` is estimated
from the bars between the fills (or the threshold itself when none exist). -/
def earlyDetail (percentage : ℚ) (t : RoundTrade) (f1 : Fill)
    (bk : List KlineData) : TradeDetail :=
  let isLong := t.positionSide = PositionSide.LONG
  let firstStopPrice := stopPriceFrom isLong f1.price percentage
  let posValue := f1.price * f1.quantity
  let pnlRateEarly :=
    if isLong then (firstStopPrice - f1.price) / f1.price * 100
    else (f1.price - firstStopPrice) / f1.price * 100
  let pnlAmountEarly := pnlRateEarly / 100 * posValue
  let maxDd :=
    if ¬bk.isEmpty then
      if isLong then (minLowOf bk - f1.price) / f1.price * 100
      else (f1.price - maxHighOf bk) / f1.price * 100
    else percentage
  { roundId := t.roundId, symbol := t.symbol, positionSide := t.positionSide
    entryPrice := f1.price, exitPrice := t.avgExitPrice
    quantity := f1.quantity, finalPrice := firstStopPrice
    pnlAmount := pnlAmountEarly, pnlRate := pnlRateEarly
    originalPnlAmount := t.realizedPnl, wouldHitStopLoss := true
    maxDrawdownRate := maxDd, openTime := f1.timestamp
    closeTime := t.closeTime }

/-- The maximum adverse excursion of the whole round: lowest low (LONG) or
highest high (SHORT) as a signed percentage of the averaged entry price. -/
def maxDrawdownRateOf (t : RoundTrade) (klines : List KlineData) : ℚ :=
  if t.positionSide = PositionSide.LONG then
    (minLowOf klines - t.avgEntryPrice) / t.avgEntryPrice * 100
  else
    (t.avgEntryPrice - maxHighOf klines) / t.avgEntryPrice * 100

/-- The single-path detail of the dialog: when the maximum adverse excursion
reaches the level, exit at the theoretical stop price, else at the real exit
price. -/
def singlePathDetail (percentage : ℚ) (t : RoundTrade)
    (klines : List KlineData) : TradeDetail :=
  let isLong := t.positionSide = PositionSide.LONG
  let entryPrice := t.avgEntryPrice
  let maxDrawdownRate := maxDrawdownRateOf t klines
  let wouldHit := maxDrawdownRate ≤ percentage
  let finalPrice :=
    if maxDrawdownRate ≤ percentage then stopPriceFrom isLong entryPrice percentage
    else t.avgExitPrice
  let pnlRate :=
    if isLong then (finalPrice - entryPrice) / entryPrice * 100
    else (entryPrice - finalPrice) / entryPrice * 100
  let pnlAmount := pnlRate / 100 * (entryPrice * t.totalQuantity)
  { roundId := t.roundId, symbol := t.symbol, positionSide := t.positionSide
    entryPrice := entryPrice, exitPrice := t.avgExitPrice
    quantity := t.totalQuantity, finalPrice := finalPrice
    pnlAmount := pnlAmount, pnlRate := pnlRate
    originalPnlAmount := t.realizedPnl, wouldHitStopLoss := wouldHit
    maxDrawdownRate := maxDrawdownRate, openTime := t.openTime
    closeTime := t.closeTime }

/-- The no-bar fallback of the dialog (also used on a failed kline fetch): the
round's real realized pnl with the real exit, no stop. -/
def fallbackDetail (t : RoundTrade) : TradeDetail :=
  let isLong := t.positionSide = PositionSide.LONG
  { roundId := t.roundId, symbol := t.symbol, positionSide := t.positionSide
    entryPrice := t.avgEntryPrice, exitPrice := t.avgExitPrice
    quantity := t.totalQuantity, finalPrice := t.avgExitPrice
    pnlAmount := t.realizedPnl
    pnlRate := (if isLong then t.avgExitPrice - t.avgEntryPrice
                else t.avgEntryPrice - t.avgExitPrice) / t.avgEntryPrice * 100
    originalPnlAmount := t.realizedPnl, wouldHitStopLoss := false
    maxDrawdownRate := 0, openTime := t.openTime, closeTime := t.closeTime }

/-- The loop body of `calculateStopLoss` for one round at one level: skip the
round when entry, exit or quantity is zero; fall back to the realized outcome
when no bars are available; otherwise check the multi-leg early stop (which
takes precedence) and then the single-path simulation.  `klines` are the bars
fetched for `[openTime, closeTime]`; `opens` the chronologically sorted
opening fills (empty when unavailable). -/
def simulateTrade (percentage : ℚ) (t : RoundTrade) (klines : List KlineData)
    (opens : List Fill) : Option TradeDetail :=
  if t.avgEntryPrice = 0 ∨ t.avgExitPrice = 0 ∨ t.totalQuantity = 0 then none
  else if klines.isEmpty then some (fallbackDetail t)
  else if 2 ≤ t.openTradeIds.length then
    match opens with
    | f1 :: f2 :: _ =>
      let isLong := t.positionSide = PositionSide.LONG
      let bk := betweenK klines f1.timestamp f2.timestamp
      if earlyHitOn isLong (stopPriceFrom isLong f1.price percentage) bk then
        some (earlyDetail percentage t f1 bk)
      else some (singlePathDetail percentage t klines)
    | _ => some (singlePathDetail percentage t klines)
  else some (singlePathDetail percentage t klines)

/-- Running aggregation state of one level of `calculateStopLoss`. -/
structure Acc where
  totalTrades : ℕ
  profitTrades : ℕ
  lossTrades : ℕ
  totalProfitAmount : ℚ
  totalLossAmount : ℚ
  totalNetProfit : ℚ
  profitTradeDetails : List TradeDetail
  lossTradeDetails : List TradeDetail
  deriving DecidableEq, Repr

/-- The empty aggregation state. -/
def Acc.init : Acc :=
  { totalTrades := 0, profitTrades := 0, lossTrades := 0
    totalProfitAmount := 0, totalLossAmount := 0, totalNetProfit := 0
    profitTradeDetails := [], lossTradeDetails := [] }

/-- Folding one produced detail into the counters (same shape as in the
worker). -/
def Acc.step (acc : Acc) (d : TradeDetail) : Acc :=
  let acc1 := { acc with totalTrades := acc.totalTrades + 1,
                         totalNetProfit := acc.totalNetProfit + d.pnlAmount }
  if 0 < d.pnlAmount then
    { acc1 with profitTrades := acc1.profitTrades + 1,
                totalProfitAmount := acc1.totalProfitAmount + d.pnlAmount,
                profitTradeDetails := acc1.profitTradeDetails ++ [d] }
  else if d.pnlAmount < 0 then
    { acc1 with lossTrades := acc1.lossTrades + 1,
                totalLossAmount := acc1.totalLossAmount + |d.pnlAmount|,
                lossTradeDetails := acc1.lossTradeDetails ++ [d] }
  else acc1

/-- One round together with the bars and opening fills its simulation uses. -/
structure RoundInput where
  trade : RoundTrade
  klines : List KlineData
  opens : List Fill
  deriving DecidableEq, Repr

/-- The whole round loop of one stop-loss level of `calculateStopLoss`. -/
def computeAcc (percentage : ℚ) (rounds : List RoundInput) : Acc :=
  rounds.foldl (fun acc r =>
    match simulateTrade percentage r.trade r.klines r.opens with
    | none => acc
    | some d => Acc.step acc d) Acc.init

/-- Per-level aggregate of the dialog (`riskLevels` element); the `-999`
sentinel is displayed as percentage `0`.  Display rounding is omitted as in
the worker. -/
structure RiskLevelResult where
  percentage : ℚ
  totalProfit : ℚ
  totalProfitAmount : ℚ
  totalLossAmount : ℚ
  winRate : ℚ
  totalTrades : ℕ
  profitTrades : ℕ
  lossTrades : ℕ
  avgProfit : ℚ
  avgLoss : ℚ
  profitFactor : ℚ
  profitTradeDetails : List TradeDetail
  lossTradeDetails : List TradeDetail
  deriving DecidableEq, Repr

/-- One level of `calculateStopLoss`. -/
def calculateLevel (percentage : ℚ) (rounds : List RoundInput) :
    RiskLevelResult :=
  let acc := computeAcc percentage rounds
  let winRate :=
    if 0 < acc.totalTrades then (acc.profitTrades : ℚ) / acc.totalTrades * 100
    else 0
  let avgProfit :=
    if 0 < acc.profitTrades then acc.totalProfitAmount / acc.profitTrades else 0
  let avgLoss :=
    if 0 < acc.lossTrades then acc.totalLossAmount / acc.lossTrades else 0
  let profitFactor := if 0 < avgLoss then avgProfit / avgLoss else 0
  { percentage := if percentage = -999 then 0 else percentage
    totalProfit := acc.totalNetProfit
    totalProfitAmount := acc.totalProfitAmount
    totalLossAmount := acc.totalLossAmount
    winRate := winRate, totalTrades := acc.totalTrades
    profitTrades := acc.profitTrades, lossTrades := acc.lossTrades
    avgProfit := avgProfit, avgLoss := avgLoss, profitFactor := profitFactor
    profitTradeDetails := acc.profitTradeDetails
    lossTradeDetails := acc.lossTradeDetails }

end Dialog

/-- An entry able to serve a request from cache: still valid, same series, and
declared range containing the requested range. -/
def servesContained (now : ℤ) (p : CacheKey) (ke : String × CacheEntry) : Prop :=
  isCacheValid now ke.2 p.interval = true ∧
  (splitColon ke.1).getD 0 "" = p.exchange ∧
  (splitColon ke.1).getD 1 "" = p.market ∧
  (splitColon ke.1).getD 2 "" = p.symbol ∧
  (splitColon ke.1).getD 3 "" = p.interval ∧
  ke.2.startTime ≤ p.startTime ∧ p.endTime ≤ ke.2.endTime

instance (now : ℤ) (p : CacheKey) (ke : String × CacheEntry) :
    Decidable (servesContained now p ke) := by
  unfold servesContained; infer_instance

lemma findCachedData_cons_serves (now : ℤ) (p : CacheKey) (k : String)
    (e : CacheEntry) (rest : List (String × CacheEntry))
    (hs : servesContained now p (k, e)) :
    findCachedData now p ((k, e) :: rest) =
      some (filterRange p.startTime p.endTime e.data) := by
  obtain ⟨hv, h0, h1, h2, h3, hc1, hc2⟩ := hs
  simp only [findCachedData]
  rw [if_neg (show ¬((!isCacheValid now e p.interval) = true) by simp [hv]),
    if_neg (show ¬_ by push_neg; exact ⟨h0, h1, h2, h3⟩), if_pos ⟨hc1, hc2⟩]

lemma findCachedData_cons_skip (now : ℤ) (p : CacheKey) (k : String)
    (e : CacheEntry) (rest : List (String × CacheEntry))
    (hs : ¬ servesContained now p (k, e)) :
    findCachedData now p ((k, e) :: rest) = findCachedData now p rest := by
  simp only [findCachedData]
  by_cases hv : isCacheValid now e p.interval = true
  · by_cases hm : (splitColon k).getD 0 "" = p.exchange ∧
        (splitColon k).getD 1 "" = p.market ∧
        (splitColon k).getD 2 "" = p.symbol ∧
        (splitColon k).getD 3 "" = p.interval
    · have hc : ¬(e.startTime ≤ p.startTime ∧ p.endTime ≤ e.endTime) := by
        intro hc
        exact hs ⟨hv, hm.1, hm.2.1, hm.2.2.1, hm.2.2.2, hc.1, hc.2⟩
      rw [if_neg (show ¬((!isCacheValid now e p.interval) = true) by simp [hv]),
        if_neg (show ¬_ by push_neg; exact ⟨hm.1, hm.2.1, hm.2.2.1, hm.2.2.2⟩),
        if_neg hc]
    · rw [if_neg (show ¬((!isCacheValid now e p.interval) = true) by simp [hv]),
        if_pos (show _ by tauto)]
  · rw [if_pos (show ((!isCacheValid now e p.interval) = true) by simp [hv])]

lemma findCachedData_of_exists (now : ℤ) (p : CacheKey) :
    ∀ cache : List (String × CacheEntry),
    (∃ ke ∈ cache, servesContained now p ke) →
    ∃ ke ∈ cache, servesContained now p ke ∧
      findCachedData now p cache =
        some (filterRange p.startTime p.endTime ke.2.data) := by
  intro cache
  induction cache with
  | nil => rintro ⟨ke, hmem, _⟩; cases hmem
  | cons head rest ih =>
    rintro ⟨ke, hmem, hserv⟩
    obtain ⟨k, e⟩ := head
    by_cases hh : servesContained now p (k, e)
    · exact ⟨(k, e), List.mem_cons_self _ _,
        hh, findCachedData_cons_serves now p k e rest hh⟩
    · have hrest : ∃ ke ∈ rest, servesContained now p ke := by
        rcases List.mem_cons.mp hmem with heq | hr
        · exact absurd (heq ▸ hserv) hh
        · exact ⟨ke, hr, hserv⟩
      obtain ⟨ke2, hmem2, hserv2, heq2⟩ := ih hrest
      exact ⟨ke2, List.mem_cons_of_mem _ hmem2, hserv2,
        (findCachedData_cons_skip now p k e rest hh).trans heq2⟩

/-- C2: for every query, if some cache entry of the same series contains the
requested range and its age since `cachedAt` is below the interval TTL
(5 minutes for "1m", 30 minutes otherwise — `cacheTTL`), then `getKlines`
issues zero Bar Store Client calls (the whole state, log included, is
unchanged) and returns that entry's bars filtered to open times within the
range; the serving entry always satisfies the strict age bound, so an entry
at or past its TTL is never used to serve from cache. -/
theorem getKlines_containment (now : ℤ)
    (fetch : FetchReq → Except Unit (List KlineData)) (sys : Sys)
    (p : GetKlinesParams)
    (h : ∃ ke ∈ sys.cache, servesContained now (cacheParamsOf p) ke) :
    ∃ ke ∈ sys.cache, servesContained now (cacheParamsOf p) ke ∧
      now - ke.2.cachedAt < cacheTTL p.interval ∧
      getKlines now fetch sys p =
        (.ok (applyOrder p.order (filterRange p.startTime p.endTime ke.2.data)),
          sys) := by
  obtain ⟨ke, hmem, hserv, heq⟩ :=
    findCachedData_of_exists now (cacheParamsOf p) sys.cache h
  refine ⟨ke, hmem, hserv, ?_, ?_⟩
  · simpa [isCacheValid, cacheParamsOf] using hserv.1
  · simp only [getKlines, heq]
    rfl

/-- A bar used by the concrete cache-layer witnesses. -/
def witBar : KlineData :=
  { openTime := 50, closeTime := 59, open_ := 10, high := 12, low := 9,
    close := 11 }

/-- A valid entry covering `[0, 100]` of the `1m` series. -/
def witEntry : CacheEntry :=
  { data := [witBar], cachedAt := 900, startTime := 0, endTime := 100 }

/-- A one-entry cache state. -/
def witSys : Sys :=
  { cache := [("binance:futures:BTCUSDT:1m:0:100", witEntry)],
    inflight := [], log := [] }

/-- A `[10, 60]` query of the same series. -/
def witParams : GetKlinesParams :=
  { symbol := "BTCUSDT", exchange := none, market := none, interval := "1m",
    startTime := 10, endTime := 60, order := none }

/-- Concrete instance of the containment theorem. -/
theorem getKlines_containment_witness :
    ∃ ke ∈ witSys.cache, servesContained 1000 (cacheParamsOf witParams) ke ∧
      1000 - ke.2.cachedAt < cacheTTL witParams.interval ∧
      getKlines 1000 (fun _ => Except.error ()) witSys witParams =
        (.ok (applyOrder witParams.order
          (filterRange witParams.startTime witParams.endTime ke.2.data)),
          witSys) :=
  getKlines_containment 1000 (fun _ => Except.error ()) witSys witParams
    ⟨("binance:futures:BTCUSDT:1m:0:100", witEntry), by decide, by decide⟩

/-- The empty cache state. -/
def emptySys : Sys := { cache := [], inflight := [], log := [] }

/-- C6 counterexample: with an empty cache and a failing Bar Store Client,
`getKlines` does not return an empty sequence — the rejection propagates to
the caller (`Except.error`, which is not `Except.ok []`); the cache stays
without an entry. -/
theorem getKlines_failed_fetch_counterexample :
    (getKlines 0 (fun _ => Except.error ()) emptySys witParams).1 =
      Except.error () ∧
    (Except.error () : Except Unit (List KlineData)) ≠ Except.ok [] ∧
    (getKlines 0 (fun _ => Except.error ()) emptySys witParams).2.cache = [] := by
  refine ⟨rfl, ?_, rfl⟩
  rintro ⟨⟩

/-- C6 as amended: on a cache miss with no identical in-flight request, a
failing fetch makes `getKlines` propagate the error — one client call is
logged, no `CacheEntry` is inserted (no negative caching, the next call
retries) — while a successful fetch always inserts (or overwrites) the entry
with `cachedAt = now` before housekeeping runs and the bars are returned. -/
theorem getKlines_fetch_outcomes (now : ℤ)
    (fetch : FetchReq → Except Unit (List KlineData)) (sys : Sys)
    (p : GetKlinesParams)
    (hmiss : findCachedData now (cacheParamsOf p) sys.cache = none)
    (hinf : sys.inflight.contains (generateCacheKey (cacheParamsOf p)) = false) :
    (∀ e, fetch (fetchReqOf (cacheParamsOf p)) = Except.error e →
      getKlines now fetch sys p =
        (Except.error e,
          { sys with log := sys.log ++ [fetchReqOf (cacheParamsOf p)] })) ∧
    (∀ d, fetch (fetchReqOf (cacheParamsOf p)) = Except.ok d →
      getKlines now fetch sys p =
        (Except.ok (applyOrder p.order d),
          { sys with
              cache := limitCacheSize now (cleanExpiredCache now
                (mapSet sys.cache (generateCacheKey (cacheParamsOf p))
                  { data := d, cachedAt := now,
                    startTime := p.startTime, endTime := p.endTime })),
              log := sys.log ++ [fetchReqOf (cacheParamsOf p)] })) := by
  constructor
  · intro e he
    simp only [getKlines, hmiss, hinf, he]
    rfl
  · intro d hd
    simp only [getKlines, hmiss, hinf, hd]
    rfl

/-- Concrete instance of the amended fetch-outcome theorem: the same miss
propagates a failure and caches a success. -/
theorem getKlines_fetch_outcomes_witness :
    getKlines 0 (fun _ => Except.error ()) emptySys witParams =
      (Except.error (),
        { emptySys with log := [fetchReqOf (cacheParamsOf witParams)] }) ∧
    getKlines 0 (fun _ => Except.ok [witBar]) emptySys witParams =
      (Except.ok [witBar],
        { emptySys with
            cache := limitCacheSize 0 (cleanExpiredCache 0
              (mapSet [] (generateCacheKey (cacheParamsOf witParams))
                { data := [witBar], cachedAt := 0,
                  startTime := witParams.startTime,
                  endTime := witParams.endTime })),
            log := [fetchReqOf (cacheParamsOf witParams)] }) :=
  ⟨(getKlines_fetch_outcomes 0 (fun _ => Except.error ()) emptySys witParams
      rfl rfl).1 () rfl,
   (getKlines_fetch_outcomes 0 (fun _ => Except.ok [witBar]) emptySys witParams
      rfl rfl).2 [witBar] rfl⟩

/-- A query wider than any cached range (so containment misses). -/
def bigParams : GetKlinesParams :=
  { symbol := "BTCUSDT", exchange := none, market := none, interval := "1m",
    startTime := 0, endTime := 500, order := none }

/-- C4: Offline purity (spec-modelled Offline Gate): with the gate enabled,
neither `getKlinesGated` nor `extendTimeRangeGated` touches the state for any
input — in particular no Bar Store Client call is logged — and a read that is
not served by containment is answered by the union of overlaps of the
series' entries intersected with the range, sorted ascending by open time. -/
theorem offline_purity (now : ℤ)
    (fetch : FetchReq → Except Unit (List KlineData)) (sys : Sys)
    (p : GetKlinesParams) (q : ExtendParams) :
    (getKlinesGated true now fetch sys p).2 = sys ∧
    (extendTimeRangeGated true now fetch sys q).2 = sys ∧
    (findCachedData now (cacheParamsOf p) sys.cache = none →
      (getKlinesGated true now fetch sys p).1 =
        Except.ok (unionOfOverlaps sys.cache (cacheParamsOf p))) := by
  refine ⟨?_, rfl, ?_⟩
  · simp only [getKlinesGated]
    cases h : findCachedData now (cacheParamsOf p) sys.cache <;> simp [h]
  · intro hmiss
    simp [getKlinesGated, hmiss]

/-- Concrete instance of offline purity on a nonempty state: containment
misses, the union of overlaps is served, nothing is fetched. -/
theorem offline_purity_witness :
    (getKlinesGated true 1000 (fun _ => Except.error ()) witSys bigParams).2 =
      witSys ∧
    (getKlinesGated true 1000 (fun _ => Except.error ()) witSys bigParams).1 =
      Except.ok (unionOfOverlaps witSys.cache (cacheParamsOf bigParams)) :=
  ⟨(offline_purity 1000 (fun _ => Except.error ()) witSys bigParams
      { symbol := "BTCUSDT", exchange := none, market := none,
        interval := "1m", newStartTime := 0, newEndTime := 500 }).1,
   (offline_purity 1000 (fun _ => Except.error ()) witSys bigParams
      { symbol := "BTCUSDT", exchange := none, market := none,
        interval := "1m", newStartTime := 0, newEndTime := 500 }).2.2 (by decide)⟩

lemma startCalls_awaiting (now : ℤ) (p : GetKlinesParams) :
    ∀ (m : ℕ) (sys : Sys),
    findCachedData now (cacheParamsOf p) sys.cache = none →
    sys.inflight.contains (generateCacheKey (cacheParamsOf p)) = true →
    startCalls now sys p m =
      (List.replicate m CallerRole.awaitingInflight, sys) := by
  intro m
  induction m with
  | zero => intro sys _ _; rfl
  | succ k ih =>
    intro sys hmiss hc
    simp only [startCalls, startCall, hmiss, hc, if_true, ih sys hmiss hc,
      List.replicate]

/-- C8: when `n` concurrent callers run `getKlines` for an identical key that
cannot be served from cache (and no request for it is in flight yet), the
interleaved synchronous prefixes issue exactly one Bar Store Client call: the
first caller fetches, every later caller awaits that in-flight request (and
hence shares its result); the cache is untouched during the prefixes. -/
theorem inflight_dedup (now : ℤ) (sys : Sys) (p : GetKlinesParams) (n : ℕ)
    (hn : 1 ≤ n)
    (hmiss : findCachedData now (cacheParamsOf p) sys.cache = none)
    (hfree : sys.inflight.contains (generateCacheKey (cacheParamsOf p)) = false) :
    (startCalls now sys p n).1 =
      CallerRole.fetching ::
        List.replicate (n - 1) CallerRole.awaitingInflight ∧
    (startCalls now sys p n).2.log =
      sys.log ++ [fetchReqOf (cacheParamsOf p)] ∧
    (startCalls now sys p n).2.cache = sys.cache := by
  obtain ⟨m, rfl⟩ : ∃ m, n = m + 1 :=
    ⟨n - 1, (Nat.succ_pred_eq_of_pos hn).symm⟩
  have h1 : startCall now sys p =
      (CallerRole.fetching,
        { sys with
            inflight := sys.inflight ++ [generateCacheKey (cacheParamsOf p)],
            log := sys.log ++ [fetchReqOf (cacheParamsOf p)] }) := by
    simp only [startCall, hmiss]
    rw [if_neg (show ¬(sys.inflight.contains
      (generateCacheKey (cacheParamsOf p)) = true) from by
        rw [hfree]; exact Bool.false_ne_true)]
  have h2 : ({ sys with
      inflight := sys.inflight ++ [generateCacheKey (cacheParamsOf p)],
      log := sys.log ++ [fetchReqOf (cacheParamsOf p)] } : Sys).inflight.contains
        (generateCacheKey (cacheParamsOf p)) = true := by
    simp
  have h3 := startCalls_awaiting now p m
    { sys with
        inflight := sys.inflight ++ [generateCacheKey (cacheParamsOf p)],
        log := sys.log ++ [fetchReqOf (cacheParamsOf p)] } hmiss h2
  simp only [startCalls, h1, h3, Nat.add_sub_cancel]
  exact ⟨trivial, trivial, trivial⟩

/-- Concrete instance of the dedup theorem: three concurrent callers, one
fetch logged. -/
theorem inflight_dedup_witness :
    (startCalls 0 emptySys witParams 3).1 =
      [CallerRole.fetching, CallerRole.awaitingInflight,
        CallerRole.awaitingInflight] ∧
    (startCalls 0 emptySys witParams 3).2.log =
      [fetchReqOf (cacheParamsOf witParams)] := by
  have h := inflight_dedup 0 emptySys witParams 3 (by decide) rfl rfl
  exact ⟨h.1, h.2.1⟩

lemma mapGet_mapSet (m : List (String × CacheEntry)) (k : String)
    (v : CacheEntry) : mapGet (mapSet m k v) k = some v := by
  unfold mapSet
  by_cases h : m.any (fun p => p.1 = k) = true
  · simp only [h, if_true]
    induction m with
    | nil => simp at h
    | cons a as ih =>
      by_cases ha : a.1 = k
      · simp [mapGet, List.find?, ha]
      · have h2 : as.any (fun p => p.1 = k) = true := by
          rcases List.any_eq_true.mp h with ⟨x, hx, hpx⟩
          rcases List.mem_cons.mp hx with rfl | hxs
          · exact absurd (of_decide_eq_true hpx) ha
          · exact List.any_eq_true.mpr ⟨x, hxs, hpx⟩
        simpa [mapGet, List.find?, ha] using ih h2
  · simp only [h, if_false]
    induction m with
    | nil => simp [mapGet, List.find?]
    | cons a as ih =>
      have ha : ¬(a.1 = k) := by
        intro hk
        exact h (List.any_eq_true.mpr ⟨a, List.mem_cons_self a as,
          decide_eq_true hk⟩)
      have h2 : ¬(as.any (fun p => p.1 = k) = true) := by
        intro hk
        rcases List.any_eq_true.mp hk with ⟨x, hx, hpx⟩
        exact h (List.any_eq_true.mpr ⟨x, List.mem_cons_of_mem a hx, hpx⟩)
      simpa [mapGet, List.find?, ha] using ih h2

/-- C7 (Scenario D): extending to `[t0, t2]` when the series' first
overlapping valid entry covers `[s0, e0]` with `s0 ≤ t0 < t2` and `e0 < t2`,
and the tail query `[e0+1, t2]` is not served by containment or an in-flight
request, issues exactly one Bar Store Client call — for the missing tail
segment — merges existing and fetched bars sorted ascending by open time and
de-duplicated by open time keeping the first occurrence, stores them as a
single entry spanning the new range, and returns the merged data restricted
to `[t0, t2]`. -/
theorem extendTimeRange_scenarioD (now : ℤ)
    (fetch : FetchReq → Except Unit (List KlineData)) (sys : Sys)
    (p : ExtendParams) (D0 B : List KlineData) (s0 e0 : ℤ)
    (hov : findOverlapping now (p.exchange.getD "binance")
      (p.market.getD "futures") p.symbol p.interval
      p.newStartTime p.newEndTime sys.cache = some (D0, s0, e0))
    (hs0 : s0 ≤ p.newStartTime) (he0 : e0 < p.newEndTime)
    (hmiss : findCachedData now (cacheParamsOf
      { symbol := p.symbol, exchange := some (p.exchange.getD "binance"),
        market := some (p.market.getD "futures"), interval := p.interval,
        startTime := e0 + 1, endTime := p.newEndTime, order := none })
      sys.cache = none)
    (hfree : sys.inflight.contains (generateCacheKey (cacheParamsOf
      { symbol := p.symbol, exchange := some (p.exchange.getD "binance"),
        market := some (p.market.getD "futures"), interval := p.interval,
        startTime := e0 + 1, endTime := p.newEndTime, order := none }))
      = false)
    (hfetch : fetch (fetchReqOf (cacheParamsOf
      { symbol := p.symbol, exchange := some (p.exchange.getD "binance"),
        market := some (p.market.getD "futures"), interval := p.interval,
        startTime := e0 + 1, endTime := p.newEndTime, order := none }))
      = Except.ok B) :
    (extendTimeRange now fetch sys p).1 =
      Except.ok (filterRange p.newStartTime p.newEndTime
        (dedupeByOpenTime (sortByOpenTime (D0 ++ B)))) ∧
    (extendTimeRange now fetch sys p).2.log =
      sys.log ++ [fetchReqOf (cacheParamsOf
        { symbol := p.symbol, exchange := some (p.exchange.getD "binance"),
          market := some (p.market.getD "futures"), interval := p.interval,
          startTime := e0 + 1, endTime := p.newEndTime, order := none })] ∧
    mapGet (extendTimeRange now fetch sys p).2.cache
      (generateCacheKey
        { symbol := p.symbol, exchange := p.exchange.getD "binance",
          market := p.market.getD "futures", interval := p.interval,
          startTime := p.newStartTime, endTime := p.newEndTime }) =
      some { data := dedupeByOpenTime (sortByOpenTime (D0 ++ B)),
             cachedAt := now, startTime := p.newStartTime,
             endTime := p.newEndTime } := by
  have htail := (getKlines_fetch_outcomes now fetch sys
    { symbol := p.symbol, exchange := some (p.exchange.getD "binance"),
      market := some (p.market.getD "futures"), interval := p.interval,
      startTime := e0 + 1, endTime := p.newEndTime, order := none }
    hmiss hfree).2 B hfetch
  have hnh : ¬(p.newStartTime < s0) := not_lt.mpr hs0
  have happ : applyOrder none B = B := rfl
  simp only [extendTimeRange, hov, Option.map_some', Option.getD_some, hnh,
    if_false, he0, if_true, htail, happ, List.append_nil]
  refine ⟨?_, ?_, ?_⟩
  · rfl
  · rfl
  · exact mapGet_mapSet _ _ _

/-- A later bar returned by the tail fetch of the extension witness. -/
def witBar2 : KlineData :=
  { openTime := 150, closeTime := 159, open_ := 11, high := 13, low := 10,
    close := 12 }

/-- Extension request `[0, 200]` over a cache covering `[0, 100]`. -/
def extParams : ExtendParams :=
  { symbol := "BTCUSDT", exchange := none, market := none, interval := "1m",
    newStartTime := 0, newEndTime := 200 }

/-- Concrete instance of Scenario D: one tail fetch `[101, 200]`, merged
entry stored for `[0, 200]`, merged data returned. -/
theorem extendTimeRange_scenarioD_witness :
    (extendTimeRange 1000 (fun _ => Except.ok [witBar2]) witSys extParams).1 =
      Except.ok (filterRange 0 200
        (dedupeByOpenTime (sortByOpenTime ([witBar] ++ [witBar2])))) ∧
    (extendTimeRange 1000 (fun _ => Except.ok [witBar2]) witSys extParams).2.log
      = [fetchReqOf (cacheParamsOf
          { symbol := "BTCUSDT", exchange := some "binance",
            market := some "futures", interval := "1m",
            startTime := 101, endTime := 200, order := none })] ∧
    mapGet
      (extendTimeRange 1000 (fun _ => Except.ok [witBar2]) witSys extParams).2.cache
      (generateCacheKey
        { symbol := "BTCUSDT", exchange := "binance", market := "futures",
          interval := "1m", startTime := 0, endTime := 200 }) =
      some { data := dedupeByOpenTime (sortByOpenTime ([witBar] ++ [witBar2])),
             cachedAt := 1000, startTime := 0, endTime := 200 } :=
  extendTimeRange_scenarioD 1000 (fun _ => Except.ok [witBar2]) witSys
    extParams [witBar] [witBar2] 0 100 rfl (by decide) (by decide) rfl rfl rfl

lemma length_filter_not_contains
    (cache : List (String × CacheEntry)) (K : List String)
    (hcache : (cache.map Prod.fst).Nodup) (hK : K.Nodup)
    (hsub : ∀ k ∈ K, k ∈ cache.map Prod.fst) :
    (cache.filter (fun ke => !K.contains ke.1)).length =
      cache.length - K.length := by
  have h1 : (cache.filter (fun ke => !K.contains ke.1)).length
      = List.countP (fun x => !K.contains x) (cache.map Prod.fst) := by
    rw [← List.countP_eq_length_filter, List.countP_map]
    rfl
  have hperm : ((cache.map Prod.fst).filter (fun x => K.contains x)).Perm K := by
    apply List.perm_of_nodup_nodup_toFinset_eq (hcache.filter _) hK
    ext x
    simp only [List.mem_toFinset, List.mem_filter]
    constructor
    · rintro ⟨_, hc⟩
      exact List.elem_iff.mp hc
    · intro hx
      exact ⟨hsub x hx, List.elem_iff.mpr hx⟩
  have h2 : List.countP (fun x => K.contains x) (cache.map Prod.fst)
      = K.length := by
    rw [List.countP_eq_length_filter]
    exact hperm.length_eq
  have h3 : ∀ l : List String,
      List.countP (fun x => K.contains x) l
        + List.countP (fun x => !K.contains x) l = l.length := by
    intro l
    induction l with
    | nil => rfl
    | cons a as ih =>
      rw [List.countP_cons, List.countP_cons, List.length_cons]
      cases h : K.contains a
      · show List.countP (fun x => K.contains x) as + 0
          + (List.countP (fun x => !K.contains x) as + 1) = as.length + 1
        omega
      · show List.countP (fun x => K.contains x) as + 1
          + (List.countP (fun x => !K.contains x) as + 0) = as.length + 1
        omega
  have h4 := h3 (cache.map Prod.fst)
  have h5 : (cache.map Prod.fst).length = cache.length :=
    List.length_map cache Prod.fst
  omega

lemma limitCacheSize_length (now : ℤ) (cache : List (String × CacheEntry))
    (hcache : (cache.map Prod.fst).Nodup)
    (h : MAX_CACHE_ENTRIES < cache.length) :
    (limitCacheSize now cache).length = MAX_CACHE_ENTRIES := by
  unfold limitCacheSize
  rw [if_neg (not_le.mpr h)]
  show (List.filter (fun ke =>
      !(List.map (fun x => x.1.1)
          (List.take (cache.length - MAX_CACHE_ENTRIES)
            ((List.map (fun ke => (ke, priorityOf now ke.1 ke.2))
              cache).mergeSort fun a b => decide (b.2 ≤ a.2)))).contains ke.1)
      cache).length = MAX_CACHE_ENTRIES
  have hmapmap : (cache.map (fun ke => (ke, priorityOf now ke.1 ke.2))).map
      (fun x => x.1.1) = cache.map Prod.fst := by
    rw [List.map_map]
    rfl
  have hperm : (((cache.map (fun ke => (ke, priorityOf now ke.1 ke.2))).mergeSort
        (fun a b => decide (b.2 ≤ a.2))).map (fun x => x.1.1)).Perm
      (cache.map Prod.fst) := by
    have := (List.mergeSort_perm
      (cache.map (fun ke => (ke, priorityOf now ke.1 ke.2)))
      (fun a b => decide (b.2 ≤ a.2))).map (fun x => x.1.1)
    rwa [hmapmap] at this
  have hsortedlen : (((cache.map (fun ke => (ke, priorityOf now ke.1 ke.2))).mergeSort
      (fun a b => decide (b.2 ≤ a.2))).map (fun x => x.1.1)).length
      = cache.length := by
    rw [hperm.length_eq, List.length_map]
  have hKeq : (((cache.map (fun ke => (ke, priorityOf now ke.1 ke.2))).mergeSort
        (fun a b => decide (b.2 ≤ a.2))).take
        (cache.length - MAX_CACHE_ENTRIES)).map (fun x => x.1.1)
      = ((((cache.map (fun ke => (ke, priorityOf now ke.1 ke.2))).mergeSort
        (fun a b => decide (b.2 ≤ a.2))).map (fun x => x.1.1)).take
        (cache.length - MAX_CACHE_ENTRIES)) :=
    List.map_take _ _ _
  rw [hKeq]
  have hnodupSorted := hperm.symm.nodup hcache
  have hKnodup := (List.take_sublist (cache.length - MAX_CACHE_ENTRIES)
    _).nodup hnodupSorted
  have hKsub : ∀ k ∈ (((cache.map (fun ke => (ke, priorityOf now ke.1 ke.2))).mergeSort
      (fun a b => decide (b.2 ≤ a.2))).map (fun x => x.1.1)).take
      (cache.length - MAX_CACHE_ENTRIES), k ∈ cache.map Prod.fst := by
    intro k hk
    exact (hperm.mem_iff).mp (List.take_subset _ _ hk)
  have hKlen : ((((cache.map (fun ke => (ke, priorityOf now ke.1 ke.2))).mergeSort
      (fun a b => decide (b.2 ≤ a.2))).map (fun x => x.1.1)).take
      (cache.length - MAX_CACHE_ENTRIES)).length
      = cache.length - MAX_CACHE_ENTRIES := by
    rw [List.length_take, hsortedlen]
    omega
  rw [length_filter_not_contains cache _ hcache hKnodup hKsub, hKlen]
  omega

/-- An expired filler entry (age far beyond any TTL), skipped by every scan. -/
def cxFiller : CacheEntry :=
  { data := [], cachedAt := -1000000000, startTime := 0, endTime := 0 }

/-- A valid entry of series `S` covering `[0, 100]`. -/
def cxEntryA : CacheEntry :=
  { data := [witBar], cachedAt := 0, startTime := 0, endTime := 100 }

/-- A valid entry of series `S` covering `[0, 300]`. -/
def cxEntryB : CacheEntry :=
  { data := [witBar, witBar2], cachedAt := 0, startTime := 0, endTime := 300 }

/-- A cache at exactly the configured maximum of 1000 entries. -/
def cxCache : List (String × CacheEntry) :=
  ("binance:futures:S:1m:0:100", cxEntryA) ::
    ("binance:futures:S:1m:0:300", cxEntryB) ::
    (List.range 998).map (fun i => ("a" ++ toString i, cxFiller))

/-- The 1000-entry state. -/
def cxSys : Sys := { cache := cxCache, inflight := [], log := [] }

/-- An extension request `[0, 200]` for series `S`. -/
def cxParams : ExtendParams :=
  { symbol := "S", exchange := none, market := none, interval := "1m",
    newStartTime := 0, newEndTime := 200 }

set_option maxRecDepth 100000 in
/-- C5 counterexample: starting from a full cache of 1000 entries,
`extendTimeRange` inserts its merged entry without running any eviction
housekeeping (here the tail segment is even served from another cached
entry, so no client call happens at all), leaving 1001 > 1000 entries. -/
theorem eviction_after_insertion_counterexample :
    (extendTimeRange 0 (fun _ => Except.error ()) cxSys cxParams).2.cache.length
      = MAX_CACHE_ENTRIES + 1 ∧
    MAX_CACHE_ENTRIES < (extendTimeRange 0 (fun _ => Except.error ())
      cxSys cxParams).2.cache.length ∧
    (extendTimeRange 0 (fun _ => Except.error ()) cxSys cxParams).2.log = [] :=
  ⟨rfl, by constructor, rfl⟩

lemma mapSet_fst_nodup (m : List (String × CacheEntry)) (k : String)
    (v : CacheEntry) (h : (m.map Prod.fst).Nodup) :
    ((mapSet m k v).map Prod.fst).Nodup := by
  unfold mapSet
  by_cases ha : m.any (fun p => p.1 = k) = true
  · rw [if_pos ha]
    have : (m.map (fun p => if p.1 = k then (k, v) else p)).map Prod.fst
        = m.map Prod.fst := by
      rw [List.map_map]
      apply List.map_congr_left
      intro p _
      by_cases hp : p.1 = k
      · simp [hp]
      · simp [hp]
    rwa [this]
  · rw [if_neg ha, List.map_append]
    have hk : k ∉ m.map Prod.fst := by
      intro hmem
      rcases List.mem_map.mp hmem with ⟨p, hp, hfst⟩
      exact ha (List.any_eq_true.mpr ⟨p, hp, by simp [hfst]⟩)
    simp [List.nodup_append, h, hk]

lemma cleanExpiredCache_fst_nodup (now : ℤ)
    (cache : List (String × CacheEntry))
    (h : (cache.map Prod.fst).Nodup) :
    ((cleanExpiredCache now cache).map Prod.fst).Nodup :=
  ((List.filter_sublist cache).map Prod.fst).nodup h

/-- C5 as amended: `limitCacheSize` deletes nothing while the count is within
the maximum; when the count exceeds the maximum it deletes exactly
`count - MAX_CACHE_ENTRIES` highest-scoring entries — leaving exactly
`MAX_CACHE_ENTRIES` survivors, a subsequence of the original map order — and
this housekeeping runs after the insertion performed by `getKlines` (so a
`getKlines` call never grows the cache beyond the maximum), but not after
the direct insertion in `extendTimeRange`. -/
theorem limitCacheSize_eviction_bound :
    (∀ (now : ℤ) (cache : List (String × CacheEntry)),
      cache.length ≤ MAX_CACHE_ENTRIES → limitCacheSize now cache = cache) ∧
    (∀ (now : ℤ) (cache : List (String × CacheEntry)),
      (cache.map Prod.fst).Nodup → MAX_CACHE_ENTRIES < cache.length →
      (limitCacheSize now cache).length = MAX_CACHE_ENTRIES) ∧
    (∀ (now : ℤ) (cache : List (String × CacheEntry)),
      (limitCacheSize now cache).Sublist cache) ∧
    (∀ (now : ℤ) (fetch : FetchReq → Except Unit (List KlineData))
      (sys : Sys) (p : GetKlinesParams),
      (sys.cache.map Prod.fst).Nodup → sys.cache.length ≤ MAX_CACHE_ENTRIES →
      (getKlines now fetch sys p).2.cache.length ≤ MAX_CACHE_ENTRIES) := by
  refine ⟨?_, ?_, ?_, ?_⟩
  · intro now cache h
    unfold limitCacheSize
    rw [if_pos h]
  · intro now cache hnodup h
    exact limitCacheSize_length now cache hnodup h
  · intro now cache
    unfold limitCacheSize
    by_cases h : cache.length ≤ MAX_CACHE_ENTRIES
    · rw [if_pos h]
    · rw [if_neg h]
      exact List.filter_sublist cache
  · intro now fetch sys p hnodup hlen
    simp only [getKlines]
    cases hfind : findCachedData now (cacheParamsOf p) sys.cache with
    | some d => exact hlen
    | none =>
      cases hinfb : sys.inflight.contains (generateCacheKey (cacheParamsOf p)) with
      | true =>
        cases hfetch : fetch (fetchReqOf (cacheParamsOf p)) <;> exact hlen
      | false =>
        cases hfetch : fetch (fetchReqOf (cacheParamsOf p)) with
        | error e => exact hlen
        | ok d =>
          show (limitCacheSize now (cleanExpiredCache now
            (mapSet sys.cache (generateCacheKey (cacheParamsOf p))
              { data := d, cachedAt := now,
                startTime := p.startTime, endTime := p.endTime }))).length
            ≤ MAX_CACHE_ENTRIES
          set inserted := mapSet sys.cache (generateCacheKey (cacheParamsOf p))
            { data := d, cachedAt := now,
              startTime := p.startTime, endTime := p.endTime } with hins
          have hnodup2 : ((cleanExpiredCache now inserted).map Prod.fst).Nodup :=
            cleanExpiredCache_fst_nodup now inserted
              (mapSet_fst_nodup sys.cache _ _ hnodup)
          by_cases hc : (cleanExpiredCache now inserted).length
              ≤ MAX_CACHE_ENTRIES
          · unfold limitCacheSize
            rw [if_pos hc]
            exact hc
          · rw [limitCacheSize_length now _ hnodup2 (not_le.mp hc)]

/-- Key of the `i`-th filler entry in the oversized witness cache. -/
def fillerKey (i : ℕ) : String := String.mk (List.replicate i 'a')

/-- An oversized cache of 1001 entries with pairwise distinct keys. -/
def bigFillerCache : List (String × CacheEntry) :=
  (List.range 1001).map (fun i => (fillerKey i, cxFiller))

lemma bigFillerCache_keys_nodup : (bigFillerCache.map Prod.fst).Nodup := by
  have hmap : bigFillerCache.map Prod.fst = (List.range 1001).map fillerKey := by
    unfold bigFillerCache
    rw [List.map_map]
    rfl
  rw [hmap]
  have hinj : Function.Injective fillerKey := by
    intro i j hij
    have hdata := congrArg String.data hij
    simp only [fillerKey] at hdata
    have := congrArg List.length hdata
    simpa using this
  exact List.Nodup.map hinj (List.nodup_range 1001)

lemma bigFillerCache_length : bigFillerCache.length = 1001 := by
  unfold bigFillerCache
  rw [List.length_map, List.length_range]

/-- Concrete instances of the eviction bound: a small cache is left alone, an
oversized cache is cut to exactly 1000 entries, survivors keep map order, and
a `getKlines` insertion into a small cache stays within the bound. -/
theorem limitCacheSize_eviction_bound_witness :
    limitCacheSize 1000 witSys.cache = witSys.cache ∧
    (limitCacheSize 5 bigFillerCache).length = MAX_CACHE_ENTRIES ∧
    (limitCacheSize 1000 witSys.cache).Sublist witSys.cache ∧
    (getKlines 0 (fun _ => Except.ok [witBar]) emptySys witParams).2.cache.length
      ≤ MAX_CACHE_ENTRIES := by
  refine ⟨limitCacheSize_eviction_bound.1 1000 witSys.cache (by decide),
    limitCacheSize_eviction_bound.2.1 5 bigFillerCache bigFillerCache_keys_nodup
      (by rw [bigFillerCache_length]; decide),
    limitCacheSize_eviction_bound.2.2.1 1000 witSys.cache,
    limitCacheSize_eviction_bound.2.2.2 0 (fun _ => Except.ok [witBar])
      emptySys witParams (by decide) (by decide)⟩

namespace Worker

/-- The consistency invariant of the running aggregation state. -/
def AccInv (acc : Acc) : Prop :=
  acc.profitTrades = acc.profitTradeDetails.length ∧
  acc.lossTrades = acc.lossTradeDetails.length ∧
  acc.profitTrades + acc.lossTrades ≤ acc.totalTrades ∧
  acc.totalNetProfit = acc.totalProfitAmount - acc.totalLossAmount ∧
  (acc.profitTradeDetails.all fun d => decide (0 < d.pnlAmount)) = true ∧
  (acc.lossTradeDetails.all fun d => decide (d.pnlAmount < 0)) = true

lemma AccInv.step {acc : Acc} (h : AccInv acc) (d : TradeDetail) :
    AccInv (Acc.step acc d) ∧
      (Acc.step acc d).totalTrades = acc.totalTrades + 1 := by
  obtain ⟨h1, h2, h3, h4, h5, h6⟩ := h
  unfold Acc.step AccInv
  by_cases hp : 0 < d.pnlAmount
  · simp only [hp, if_true]
    refine ⟨⟨?_, ?_, ?_, ?_, ?_, ?_⟩, ?_⟩
    · simp [h1]
    · simp [h2]
    · omega
    · linarith
    · simp [List.all_append, h5, decide_eq_true hp]
    · simpa using h6
    · trivial
  · by_cases hn : d.pnlAmount < 0
    · simp only [hp, hn, if_false, if_true]
      refine ⟨⟨?_, ?_, ?_, ?_, ?_, ?_⟩, ?_⟩
      · simpa using h1
      · simp [h2]
      · omega
      · linarith [abs_of_neg hn]
      · simpa using h5
      · simp [List.all_append, h6, decide_eq_true hn]
      · trivial
    · have h0 : d.pnlAmount = 0 := le_antisymm (not_lt.mp hp) (not_lt.mp hn)
      simp only [hp, hn, if_false]
      refine ⟨⟨h1, h2, ?_, ?_, h5, h6⟩, ?_⟩
      · omega
      · rw [h0]
        linarith
      · trivial

lemma computeAcc_fold (p : ℚ) :
    ∀ (ms : List PreparedMetric) (acc : Acc), AccInv acc →
    AccInv (ms.foldl (fun a m =>
        match simulateMetric p m with
        | none => a
        | some d => Acc.step a d) acc) ∧
      (ms.foldl (fun a m =>
        match simulateMetric p m with
        | none => a
        | some d => Acc.step a d) acc).totalTrades =
        acc.totalTrades +
          (ms.filter (fun m => (simulateMetric p m).isSome)).length := by
  intro ms
  induction ms with
  | nil =>
    intro acc h
    exact ⟨h, by simp⟩
  | cons m rest ih =>
    intro acc h
    cases hm : simulateMetric p m with
    | none =>
      have := ih acc h
      simp only [List.foldl_cons, hm, List.filter_cons, Option.isSome_none]
      constructor
      · exact this.1
      · simpa [hm] using this.2
    | some d =>
      have hstep := AccInv.step h d
      have := ih (Acc.step acc d) hstep.1
      simp only [List.foldl_cons, hm, List.filter_cons, Option.isSome_some]
      constructor
      · exact this.1
      · simp only [this.2, hstep.2]
        simp [hm]
        omega
end Worker

namespace Dialog

/-- The consistency invariant of the dialog's running aggregation state. -/
def AccInv (acc : Acc) : Prop :=
  acc.profitTrades = acc.profitTradeDetails.length ∧
  acc.lossTrades = acc.lossTradeDetails.length ∧
  acc.profitTrades + acc.lossTrades ≤ acc.totalTrades ∧
  acc.totalNetProfit = acc.totalProfitAmount - acc.totalLossAmount ∧
  (acc.profitTradeDetails.all fun d => decide (0 < d.pnlAmount)) = true ∧
  (acc.lossTradeDetails.all fun d => decide (d.pnlAmount < 0)) = true

lemma AccInv.stepD {acc : Acc} (h : AccInv acc) (d : TradeDetail) :
    AccInv (Acc.step acc d) ∧
      (Acc.step acc d).totalTrades = acc.totalTrades + 1 := by
  obtain ⟨h1, h2, h3, h4, h5, h6⟩ := h
  unfold Acc.step AccInv
  by_cases hp : 0 < d.pnlAmount
  · simp only [hp, if_true]
    refine ⟨⟨?_, ?_, ?_, ?_, ?_, ?_⟩, ?_⟩
    · simp [h1]
    · simp [h2]
    · omega
    · linarith
    · simp [List.all_append, h5, decide_eq_true hp]
    · simpa using h6
    · trivial
  · by_cases hn : d.pnlAmount < 0
    · simp only [hp, hn, if_false, if_true]
      refine ⟨⟨?_, ?_, ?_, ?_, ?_, ?_⟩, ?_⟩
      · simpa using h1
      · simp [h2]
      · omega
      · linarith [abs_of_neg hn]
      · simpa using h5
      · simp [List.all_append, h6, decide_eq_true hn]
      · trivial
    · have h0 : d.pnlAmount = 0 := le_antisymm (not_lt.mp hp) (not_lt.mp hn)
      simp only [hp, hn, if_false]
      refine ⟨⟨h1, h2, ?_, ?_, h5, h6⟩, ?_⟩
      · omega
      · rw [h0]
        linarith
      · trivial

lemma computeAccD_fold (p : ℚ) :
    ∀ (rounds : List RoundInput) (acc : Acc), AccInv acc →
    AccInv (rounds.foldl (fun a r =>
        match simulateTrade p r.trade r.klines r.opens with
        | none => a
        | some d => Acc.step a d) acc) ∧
      (rounds.foldl (fun a r =>
        match simulateTrade p r.trade r.klines r.opens with
        | none => a
        | some d => Acc.step a d) acc).totalTrades =
        acc.totalTrades + (rounds.filter
          (fun r => (simulateTrade p r.trade r.klines r.opens).isSome)).length := by
  intro rounds
  induction rounds with
  | nil =>
    intro acc h
    exact ⟨h, by simp⟩
  | cons r rest ih =>
    intro acc h
    cases hm : simulateTrade p r.trade r.klines r.opens with
    | none =>
      have := ih acc h
      simp only [List.foldl_cons, hm, List.filter_cons, Option.isSome_none]
      constructor
      · exact this.1
      · simpa [hm] using this.2
    | some d =>
      have hstep := AccInv.stepD h d
      have := ih (Acc.step acc d) hstep.1
      simp only [List.foldl_cons, hm, List.filter_cons, Option.isSome_some]
      constructor
      · exact this.1
      · simp only [this.2, hstep.2]
        simp [hm]
        omega

end Dialog

/-- C10: in every per-level result of both level computations (the worker's
`computeForLevel` and the dialog's per-level loop), each processed round
contributes to `totalTrades` exactly once (skipped rounds not at all); the
profit and loss detail lists have exactly `profitTrades` and `lossTrades`
elements, every listed profit detail has strictly positive and every listed
loss detail strictly negative pnl (so a zero-pnl round is counted in
`totalTrades` and `totalNetProfit` but in neither side), hence
`profitTrades + lossTrades ≤ totalTrades`; and the pre-rounding aggregates
satisfy `totalNetProfit = totalProfitAmount - totalLossAmount`. -/
theorem computeForLevel_aggregation (p : ℚ)
    (metrics : List Worker.PreparedMetric) (rounds : List Dialog.RoundInput) :
    ((Worker.computeForLevel p metrics).totalTrades =
      (metrics.filter (fun m => (Worker.simulateMetric p m).isSome)).length ∧
     (Worker.computeForLevel p metrics).profitTrades =
      (Worker.computeForLevel p metrics).profitTradeDetails.length ∧
     (Worker.computeForLevel p metrics).lossTrades =
      (Worker.computeForLevel p metrics).lossTradeDetails.length ∧
     (Worker.computeForLevel p metrics).profitTrades +
      (Worker.computeForLevel p metrics).lossTrades ≤
      (Worker.computeForLevel p metrics).totalTrades ∧
     ((Worker.computeForLevel p metrics).profitTradeDetails.all
       fun d => decide (0 < d.pnlAmount)) = true ∧
     ((Worker.computeForLevel p metrics).lossTradeDetails.all
       fun d => decide (d.pnlAmount < 0)) = true ∧
     (Worker.computeForLevel p metrics).totalProfit =
      (Worker.computeForLevel p metrics).totalProfitAmount -
      (Worker.computeForLevel p metrics).totalLossAmount) ∧
    ((Dialog.calculateLevel p rounds).totalTrades =
      (rounds.filter (fun r =>
        (Dialog.simulateTrade p r.trade r.klines r.opens).isSome)).length ∧
     (Dialog.calculateLevel p rounds).profitTrades =
      (Dialog.calculateLevel p rounds).profitTradeDetails.length ∧
     (Dialog.calculateLevel p rounds).lossTrades =
      (Dialog.calculateLevel p rounds).lossTradeDetails.length ∧
     (Dialog.calculateLevel p rounds).profitTrades +
      (Dialog.calculateLevel p rounds).lossTrades ≤
      (Dialog.calculateLevel p rounds).totalTrades ∧
     ((Dialog.calculateLevel p rounds).profitTradeDetails.all
       fun d => decide (0 < d.pnlAmount)) = true ∧
     ((Dialog.calculateLevel p rounds).lossTradeDetails.all
       fun d => decide (d.pnlAmount < 0)) = true ∧
     (Dialog.calculateLevel p rounds).totalProfit =
      (Dialog.calculateLevel p rounds).totalProfitAmount -
      (Dialog.calculateLevel p rounds).totalLossAmount) := by
  have hinitW : Worker.AccInv Worker.Acc.init := by
    unfold Worker.AccInv Worker.Acc.init
    refine ⟨rfl, rfl, ?_, ?_, rfl, rfl⟩
    · exact le_refl 0
    · norm_num
  have hinitD : Dialog.AccInv Dialog.Acc.init := by
    unfold Dialog.AccInv Dialog.Acc.init
    refine ⟨rfl, rfl, ?_, ?_, rfl, rfl⟩
    · exact le_refl 0
    · norm_num
  have hW := Worker.computeAcc_fold p metrics Worker.Acc.init hinitW
  have hD := Dialog.computeAccD_fold p rounds Dialog.Acc.init hinitD
  obtain ⟨⟨w1, w2, w3, w4, w5, w6⟩, wt⟩ := hW
  obtain ⟨⟨d1, d2, d3, d4, d5, d6⟩, dt⟩ := hD
  constructor
  · exact ⟨by simpa [Worker.computeForLevel, Worker.computeAcc,
      Worker.Acc.init] using wt, w1, w2, w3, w5, w6, w4⟩
  · exact ⟨by simpa [Dialog.calculateLevel, Dialog.computeAcc,
      Dialog.Acc.init] using dt, d1, d2, d3, d5, d6, d4⟩

/-- `Math.min(...)` over a list of rationals, seeded with the head. -/
def minQ : List ℚ → ℚ
  | [] => 0
  | x :: xs => xs.foldl min x

/-- `Math.max(...)` over a list of rationals, seeded with the head. -/
def maxQ : List ℚ → ℚ
  | [] => 0
  | x :: xs => xs.foldl max x

lemma foldl_min_le_iff (x : ℚ) :
    ∀ (l : List ℚ) (a : ℚ), l.foldl min a ≤ x ↔ a ≤ x ∨ ∃ y ∈ l, y ≤ x := by
  intro l
  induction l with
  | nil => intro a; simp
  | cons b bs ih =>
    intro a
    rw [List.foldl_cons, ih, min_le_iff]
    constructor
    · rintro ((h | h) | ⟨y, hy, hle⟩)
      · exact Or.inl h
      · exact Or.inr ⟨b, List.mem_cons_self b bs, h⟩
      · exact Or.inr ⟨y, List.mem_cons_of_mem b hy, hle⟩
    · rintro (h | ⟨y, hy, hle⟩)
      · exact Or.inl (Or.inl h)
      · rcases List.mem_cons.mp hy with rfl | hybs
        · exact Or.inl (Or.inr hle)
        · exact Or.inr ⟨y, hybs, hle⟩

lemma foldl_max_ge_iff (x : ℚ) :
    ∀ (l : List ℚ) (a : ℚ), x ≤ l.foldl max a ↔ x ≤ a ∨ ∃ y ∈ l, x ≤ y := by
  intro l
  induction l with
  | nil => intro a; simp
  | cons b bs ih =>
    intro a
    rw [List.foldl_cons, ih, le_max_iff]
    constructor
    · rintro ((h | h) | ⟨y, hy, hle⟩)
      · exact Or.inl h
      · exact Or.inr ⟨b, List.mem_cons_self b bs, h⟩
      · exact Or.inr ⟨y, List.mem_cons_of_mem b hy, hle⟩
    · rintro (h | ⟨y, hy, hle⟩)
      · exact Or.inl (Or.inl h)
      · rcases List.mem_cons.mp hy with rfl | hybs
        · exact Or.inl (Or.inr hle)
        · exact Or.inr ⟨y, hybs, hle⟩

lemma minQ_le_iff (x : ℚ) (l : List ℚ) (hne : l ≠ []) :
    minQ l ≤ x ↔ ∃ y ∈ l, y ≤ x := by
  cases l with
  | nil => exact absurd rfl hne
  | cons a as =>
    unfold minQ
    rw [foldl_min_le_iff]
    constructor
    · rintro (h | ⟨y, hy, hle⟩)
      · exact ⟨a, List.mem_cons_self a as, h⟩
      · exact ⟨y, List.mem_cons_of_mem a hy, hle⟩
    · rintro ⟨y, hy, hle⟩
      rcases List.mem_cons.mp hy with rfl | hyas
      · exact Or.inl hle
      · exact Or.inr ⟨y, hyas, hle⟩

lemma le_maxQ_iff (x : ℚ) (l : List ℚ) (hne : l ≠ []) :
    x ≤ maxQ l ↔ ∃ y ∈ l, x ≤ y := by
  cases l with
  | nil => exact absurd rfl hne
  | cons a as =>
    unfold maxQ
    rw [foldl_max_ge_iff]
    constructor
    · rintro (h | ⟨y, hy, hle⟩)
      · exact ⟨a, List.mem_cons_self a as, h⟩
      · exact ⟨y, List.mem_cons_of_mem a hy, hle⟩
    · rintro ⟨y, hy, hle⟩
      rcases List.mem_cons.mp hy with rfl | hyas
      · exact Or.inl hle
      · exact Or.inr ⟨y, hyas, hle⟩

lemma excursion_le_iff_long (e x p : ℚ) (he : 0 < e) :
    (x - e) / e * 100 ≤ p ↔ x ≤ e * (1 + p / 100) := by
  rw [div_mul_eq_mul_div, div_le_iff he]
  constructor <;> intro h <;> nlinarith

lemma excursion_le_iff_short (e y p : ℚ) (he : 0 < e) :
    (e - y) / e * 100 ≤ p ↔ e * (1 - p / 100) ≤ y := by
  rw [div_mul_eq_mul_div, div_le_iff he]
  constructor <;> intro h <;> nlinarith

lemma pnl_stop_long (e q p : ℚ) (he : e ≠ 0) :
    (e * (1 + p / 100) - e) / e * 100 / 100 * (e * q) = p / 100 * (e * q) := by
  field_simp
  ring

lemma pnl_stop_short (e q p : ℚ) (he : e ≠ 0) :
    (e - e * (1 - p / 100)) / e * 100 / 100 * (e * q) = p / 100 * (e * q) := by
  field_simp
  ring

lemma pnl_exit (e x q : ℚ) (he : e ≠ 0) :
    (x - e) / e * 100 / 100 * (e * q) = (x - e) * q := by
  field_simp
  ring

lemma pnl_exit_short (e x q : ℚ) (he : e ≠ 0) :
    (e - x) / e * 100 / 100 * (e * q) = (e - x) * q := by
  field_simp
  ring

namespace Worker

lemma pathTriggered_long_iff (stop : ℚ) (lows highs : List ℚ) (n : ℕ)
    (hn : lows.length = n) :
    pathTriggered true stop lows highs n = true ↔ ∃ y ∈ lows, y ≤ stop := by
  unfold pathTriggered
  rw [if_pos rfl, List.any_eq_true]
  constructor
  · rintro ⟨i, hi, hdec⟩
    rw [List.mem_range] at hi
    have hilen : i < lows.length := by omega
    refine ⟨lows.getD i 0, ?_, of_decide_eq_true hdec⟩
    rw [List.getD_eq_getElem lows 0 hilen]
    exact List.getElem_mem hilen
  · rintro ⟨y, hy, hle⟩
    rcases List.mem_iff_getElem.mp hy with ⟨i, hilen, rfl⟩
    refine ⟨i, List.mem_range.mpr (by omega), ?_⟩
    rw [List.getD_eq_getElem lows 0 hilen]
    exact decide_eq_true hle

lemma pathTriggered_short_iff (stop : ℚ) (lows highs : List ℚ) (n : ℕ)
    (hn : highs.length = n) :
    pathTriggered false stop lows highs n = true ↔ ∃ y ∈ highs, stop ≤ y := by
  unfold pathTriggered
  rw [if_neg (by simp), List.any_eq_true]
  constructor
  · rintro ⟨i, hi, hdec⟩
    rw [List.mem_range] at hi
    have hilen : i < highs.length := by omega
    refine ⟨highs.getD i 0, ?_, of_decide_eq_true hdec⟩
    rw [List.getD_eq_getElem highs 0 hilen]
    exact List.getElem_mem hilen
  · rintro ⟨y, hy, hle⟩
    rcases List.mem_iff_getElem.mp hy with ⟨i, hilen, rfl⟩
    refine ⟨i, List.mem_range.mpr (by omega), ?_⟩
    rw [List.getD_eq_getElem highs 0 hilen]
    exact decide_eq_true hle

end Worker

namespace Worker

/-- The theoretical stop price of the kline-path branch. -/
def stopPriceOf (p : ℚ) (m : PreparedMetric) : ℚ :=
  if m.positionSide = PositionSide.LONG then m.entryPrice * (1 + p / 100)
  else m.entryPrice * (1 - p / 100)

/-- The maximum adverse excursion over the supplied arrays: lowest low (LONG)
or highest high (SHORT) as a signed percentage of the entry price. -/
def maeOf (m : PreparedMetric) (lows highs : List ℚ) : ℚ :=
  if m.positionSide = PositionSide.LONG then
    (minQ lows - m.entryPrice) / m.entryPrice * 100
  else
    (m.entryPrice - maxQ highs) / m.entryPrice * 100

lemma simulateMetric_sentinel (m : PreparedMetric)
    (hskip : ¬(m.entryPrice = 0 ∨ m.exitPrice = 0 ∨ m.quantity = 0)) :
    simulateMetric 0 m = some (originalDetail m) := by
  unfold simulateMetric
  rw [if_neg hskip, if_pos rfl]

lemma simulateMetric_early (p : ℚ) (m : PreparedMetric)
    (edr firstPrice firstQty : ℚ)
    (hskip : ¬(m.entryPrice = 0 ∨ m.exitPrice = 0 ∨ m.quantity = 0))
    (hp : ¬ p = 0)
    (hedr : m.earlyDrawdownRate = some edr)
    (hfp : m.earlyFirstOpenPrice = some firstPrice)
    (hfq : m.earlyFirstOpenQty = some firstQty)
    (hle : edr ≤ p) :
    simulateMetric p m = some (earlyDetail p m firstPrice firstQty edr) := by
  unfold simulateMetric
  rw [if_neg hskip, if_neg hp, hedr, hfp, hfq]
  show (if edr ≤ p then some (earlyDetail p m firstPrice firstQty edr)
    else simulateMetric.simulateMetricPath p m) = _
  rw [if_pos hle]

lemma simulateMetric_eq_path (p : ℚ) (m : PreparedMetric)
    (hskip : ¬(m.entryPrice = 0 ∨ m.exitPrice = 0 ∨ m.quantity = 0))
    (hp : ¬ p = 0) (hearly : earlyGuard p m = false) :
    simulateMetric p m = simulateMetric.simulateMetricPath p m := by
  unfold simulateMetric
  rw [if_neg hskip, if_neg hp]
  unfold earlyGuard at hearly
  cases hedr : m.earlyDrawdownRate with
  | none => rfl
  | some edr =>
    cases hfp : m.earlyFirstOpenPrice with
    | none => rfl
    | some fp =>
      cases hfq : m.earlyFirstOpenQty with
      | none => rfl
      | some fq =>
        rw [hedr, hfp, hfq] at hearly
        show (if edr ≤ p then some (earlyDetail p m fp fq edr)
          else simulateMetric.simulateMetricPath p m) = _
        rw [if_neg (of_decide_eq_false
          (show (decide (edr ≤ p)) = false from hearly))]

lemma simulateMetricPath_spec (p : ℚ) (m : PreparedMetric)
    (lows highs : List ℚ) (ts : List ℤ)
    (hlows : m.klineLows = some lows) (hhighs : m.klineHighs = some highs)
    (hts : m.klineTimestamps = some ts)
    (hlen1 : lows.length = highs.length) (hlen2 : highs.length = ts.length)
    (hpos : 0 < lows.length) :
    simulateMetric.simulateMetricPath p m =
      if pathTriggered (decide (m.positionSide = PositionSide.LONG))
          (stopPriceOf p m) lows highs ts.length = true
      then some (stopDetail p m) else some (originalDetail m) := by
  unfold simulateMetric.simulateMetricPath
  rw [hlows, hhighs, hts]
  show (if lows.length = highs.length ∧ highs.length = ts.length
        ∧ 0 < lows.length
      then
        if pathTriggered (decide (m.positionSide = PositionSide.LONG))
            (if m.positionSide = PositionSide.LONG
             then m.entryPrice * (1 + p / 100)
             else m.entryPrice * (1 - p / 100)) lows highs ts.length
        then some (stopDetail p m) else some (originalDetail m)
      else some (originalDetail m)) = _
  rw [if_pos (show lows.length = highs.length ∧ highs.length = ts.length
    ∧ 0 < lows.length from ⟨hlen1, hlen2, hpos⟩)]
  rfl

lemma trigger_iff_mae (p : ℚ) (m : PreparedMetric) (lows highs : List ℚ)
    (n : ℕ) (hentry : 0 < m.entryPrice) (hne : lows ≠ []) (hneh : highs ≠ [])
    (hlenl : lows.length = n) (hlenh : highs.length = n) :
    pathTriggered (decide (m.positionSide = PositionSide.LONG))
        (stopPriceOf p m) lows highs n = true ↔
      maeOf m lows highs ≤ p := by
  unfold stopPriceOf maeOf
  cases hside : m.positionSide with
  | LONG =>
    rw [show (decide (PositionSide.LONG = PositionSide.LONG)) = true from rfl,
      if_pos rfl, if_pos rfl,
      pathTriggered_long_iff _ lows highs n hlenl,
      excursion_le_iff_long _ _ _ hentry, minQ_le_iff _ lows hne]
  | SHORT =>
    rw [show (decide (PositionSide.SHORT = PositionSide.LONG)) = false from rfl,
      if_neg (show ¬(PositionSide.SHORT = PositionSide.LONG) by decide),
      if_neg (show ¬(PositionSide.SHORT = PositionSide.LONG) by decide),
      pathTriggered_short_iff _ lows highs n hlenh,
      excursion_le_iff_short _ _ _ hentry, le_maxQ_iff _ highs hneh]

lemma stopDetail_spec (p : ℚ) (m : PreparedMetric) (he : m.entryPrice ≠ 0) :
    (stopDetail p m).wouldHitStopLoss = true ∧
    (stopDetail p m).finalPrice = stopPriceOf p m ∧
    (stopDetail p m).pnlAmount = p / 100 * (m.entryPrice * m.quantity) := by
  refine ⟨rfl, rfl, ?_⟩
  show (if m.positionSide = PositionSide.LONG
      then ((if m.positionSide = PositionSide.LONG
             then m.entryPrice * (1 + p / 100)
             else m.entryPrice * (1 - p / 100)) - m.entryPrice)
            / m.entryPrice * 100
      else (m.entryPrice - (if m.positionSide = PositionSide.LONG
             then m.entryPrice * (1 + p / 100)
             else m.entryPrice * (1 - p / 100)))
            / m.entryPrice * 100) / 100 * (m.entryPrice * m.quantity)
    = p / 100 * (m.entryPrice * m.quantity)
  cases hside : m.positionSide with
  | LONG =>
    rw [if_pos rfl, if_pos rfl]
    exact pnl_stop_long m.entryPrice m.quantity p he
  | SHORT =>
    rw [if_neg (show ¬(PositionSide.SHORT = PositionSide.LONG) by decide),
      if_neg (show ¬(PositionSide.SHORT = PositionSide.LONG) by decide)]
    exact pnl_stop_short m.entryPrice m.quantity p he

lemma originalDetail_spec (m : PreparedMetric) (he : m.entryPrice ≠ 0) :
    (originalDetail m).wouldHitStopLoss = false ∧
    (originalDetail m).finalPrice = m.exitPrice ∧
    (originalDetail m).pnlAmount =
      (if m.positionSide = PositionSide.LONG then m.exitPrice - m.entryPrice
       else m.entryPrice - m.exitPrice) * m.quantity := by
  refine ⟨rfl, rfl, ?_⟩
  show (if m.positionSide = PositionSide.LONG
      then (m.exitPrice - m.entryPrice) / m.entryPrice * 100
      else (m.entryPrice - m.exitPrice) / m.entryPrice * 100) / 100
      * (m.entryPrice * m.quantity)
    = (if m.positionSide = PositionSide.LONG
       then m.exitPrice - m.entryPrice
       else m.entryPrice - m.exitPrice) * m.quantity
  cases hside : m.positionSide with
  | LONG =>
    rw [if_pos rfl, if_pos rfl]
    exact pnl_exit m.entryPrice m.exitPrice m.quantity he
  | SHORT =>
    rw [if_neg (show ¬(PositionSide.SHORT = PositionSide.LONG) by decide),
      if_neg (show ¬(PositionSide.SHORT = PositionSide.LONG) by decide)]
    exact pnl_exit_short m.entryPrice m.exitPrice m.quantity he

end Worker

namespace Dialog

lemma simulateTrade_fallback (p : ℚ) (t : RoundTrade) (opens : List Fill)
    (hskip : ¬(t.avgEntryPrice = 0 ∨ t.avgExitPrice = 0 ∨ t.totalQuantity = 0)) :
    simulateTrade p t [] opens = some (fallbackDetail t) := by
  unfold simulateTrade
  rw [if_neg hskip]
  rfl

lemma simulateTrade_single (p : ℚ) (t : RoundTrade) (klines : List KlineData)
    (opens : List Fill)
    (hskip : ¬(t.avgEntryPrice = 0 ∨ t.avgExitPrice = 0 ∨ t.totalQuantity = 0))
    (hne : klines.isEmpty = false)
    (hearly : earlyFires p t klines opens = false) :
    simulateTrade p t klines opens = some (singlePathDetail p t klines) := by
  unfold simulateTrade
  rw [if_neg hskip, if_neg (by rw [hne]; exact Bool.false_ne_true)]
  by_cases hids : 2 ≤ t.openTradeIds.length
  · rw [if_pos hids]
    cases opens with
    | nil => rfl
    | cons f1 rest =>
      cases rest with
      | nil => rfl
      | cons f2 rest2 =>
        have hhit : (decide (2 ≤ t.openTradeIds.length) &&
            earlyHitOn (decide (t.positionSide = PositionSide.LONG))
              (stopPriceFrom (decide (t.positionSide = PositionSide.LONG))
                f1.price p)
              (betweenK klines f1.timestamp f2.timestamp)) = false := hearly
        rw [decide_eq_true hids, Bool.true_and] at hhit
        show (if earlyHitOn (decide (t.positionSide = PositionSide.LONG))
            (stopPriceFrom (decide (t.positionSide = PositionSide.LONG))
              f1.price p)
            (betweenK klines f1.timestamp f2.timestamp) = true
          then some (earlyDetail p t f1
            (betweenK klines f1.timestamp f2.timestamp))
          else some (singlePathDetail p t klines)) = _
        rw [if_neg (by rw [hhit]; exact Bool.false_ne_true)]
  · rw [if_neg hids]

lemma simulateTrade_early (p : ℚ) (t : RoundTrade) (klines : List KlineData)
    (f1 f2 : Fill) (rest : List Fill)
    (hskip : ¬(t.avgEntryPrice = 0 ∨ t.avgExitPrice = 0 ∨ t.totalQuantity = 0))
    (hne : klines.isEmpty = false) (hids : 2 ≤ t.openTradeIds.length)
    (hhit : earlyHitOn (decide (t.positionSide = PositionSide.LONG))
      (stopPriceFrom (decide (t.positionSide = PositionSide.LONG)) f1.price p)
      (betweenK klines f1.timestamp f2.timestamp) = true) :
    simulateTrade p t klines (f1 :: f2 :: rest) =
      some (earlyDetail p t f1 (betweenK klines f1.timestamp f2.timestamp)) := by
  unfold simulateTrade
  rw [if_neg hskip, if_neg (by rw [hne]; exact Bool.false_ne_true),
    if_pos hids]
  show (if earlyHitOn (decide (t.positionSide = PositionSide.LONG))
      (stopPriceFrom (decide (t.positionSide = PositionSide.LONG)) f1.price p)
      (betweenK klines f1.timestamp f2.timestamp) = true
    then some (earlyDetail p t f1 (betweenK klines f1.timestamp f2.timestamp))
    else some (singlePathDetail p t klines)) = _
  rw [if_pos hhit]

lemma singlePathDetail_spec (p : ℚ) (t : RoundTrade) (klines : List KlineData)
    (he : t.avgEntryPrice ≠ 0) :
    ((singlePathDetail p t klines).wouldHitStopLoss = true
      ↔ maxDrawdownRateOf t klines ≤ p) ∧
    (maxDrawdownRateOf t klines ≤ p →
      (singlePathDetail p t klines).finalPrice =
        stopPriceFrom (decide (t.positionSide = PositionSide.LONG))
          t.avgEntryPrice p ∧
      (singlePathDetail p t klines).pnlAmount =
        p / 100 * (t.avgEntryPrice * t.totalQuantity)) ∧
    (¬(maxDrawdownRateOf t klines ≤ p) →
      (singlePathDetail p t klines).finalPrice = t.avgExitPrice ∧
      (singlePathDetail p t klines).pnlAmount =
        (if t.positionSide = PositionSide.LONG
         then t.avgExitPrice - t.avgEntryPrice
         else t.avgEntryPrice - t.avgExitPrice) * t.totalQuantity) := by
  refine ⟨⟨of_decide_eq_true, decide_eq_true⟩, ?_, ?_⟩
  · intro hmdd
    constructor
    · show (if maxDrawdownRateOf t klines ≤ p
          then stopPriceFrom (decide (t.positionSide = PositionSide.LONG))
            t.avgEntryPrice p
          else t.avgExitPrice) = _
      rw [if_pos hmdd]
    · show (if t.positionSide = PositionSide.LONG
          then ((if maxDrawdownRateOf t klines ≤ p
                 then stopPriceFrom
                   (decide (t.positionSide = PositionSide.LONG))
                   t.avgEntryPrice p
                 else t.avgExitPrice) - t.avgEntryPrice)
                / t.avgEntryPrice * 100
          else (t.avgEntryPrice - (if maxDrawdownRateOf t klines ≤ p
                 then stopPriceFrom
                   (decide (t.positionSide = PositionSide.LONG))
                   t.avgEntryPrice p
                 else t.avgExitPrice))
                / t.avgEntryPrice * 100) / 100
          * (t.avgEntryPrice * t.totalQuantity)
        = p / 100 * (t.avgEntryPrice * t.totalQuantity)
      rw [if_pos hmdd]
      cases hside : t.positionSide with
      | LONG =>
        rw [if_pos rfl]
        exact pnl_stop_long t.avgEntryPrice t.totalQuantity p he
      | SHORT =>
        rw [if_neg (show ¬(PositionSide.SHORT = PositionSide.LONG) by decide)]
        exact pnl_stop_short t.avgEntryPrice t.totalQuantity p he
  · intro hmdd
    constructor
    · show (if maxDrawdownRateOf t klines ≤ p
          then stopPriceFrom (decide (t.positionSide = PositionSide.LONG))
            t.avgEntryPrice p
          else t.avgExitPrice) = _
      rw [if_neg hmdd]
    · show (if t.positionSide = PositionSide.LONG
          then ((if maxDrawdownRateOf t klines ≤ p
                 then stopPriceFrom
                   (decide (t.positionSide = PositionSide.LONG))
                   t.avgEntryPrice p
                 else t.avgExitPrice) - t.avgEntryPrice)
                / t.avgEntryPrice * 100
          else (t.avgEntryPrice - (if maxDrawdownRateOf t klines ≤ p
                 then stopPriceFrom
                   (decide (t.positionSide = PositionSide.LONG))
                   t.avgEntryPrice p
                 else t.avgExitPrice))
                / t.avgEntryPrice * 100) / 100
          * (t.avgEntryPrice * t.totalQuantity)
        = (if t.positionSide = PositionSide.LONG
           then t.avgExitPrice - t.avgEntryPrice
           else t.avgEntryPrice - t.avgExitPrice) * t.totalQuantity
      rw [if_neg hmdd]
      cases hside : t.positionSide with
      | LONG =>
        rw [if_pos rfl, if_pos rfl]
        exact pnl_exit t.avgEntryPrice t.avgExitPrice t.totalQuantity he
      | SHORT =>
        rw [if_neg (show ¬(PositionSide.SHORT = PositionSide.LONG) by decide),
          if_neg (show ¬(PositionSide.SHORT = PositionSide.LONG) by decide)]
        exact pnl_exit_short t.avgEntryPrice t.avgExitPrice t.totalQuantity he

lemma earlyDetailD_spec (p : ℚ) (t : RoundTrade) (f1 : Fill)
    (bk : List KlineData) (hf : f1.price ≠ 0) :
    (earlyDetail p t f1 bk).wouldHitStopLoss = true ∧
    (earlyDetail p t f1 bk).entryPrice = f1.price ∧
    (earlyDetail p t f1 bk).quantity = f1.quantity ∧
    (earlyDetail p t f1 bk).finalPrice =
      stopPriceFrom (decide (t.positionSide = PositionSide.LONG)) f1.price p ∧
    (earlyDetail p t f1 bk).pnlAmount = p / 100 * (f1.price * f1.quantity) := by
  refine ⟨rfl, rfl, rfl, rfl, ?_⟩
  show (if t.positionSide = PositionSide.LONG
      then (stopPriceFrom (decide (t.positionSide = PositionSide.LONG))
          f1.price p - f1.price) / f1.price * 100
      else (f1.price - stopPriceFrom
          (decide (t.positionSide = PositionSide.LONG)) f1.price p)
          / f1.price * 100) / 100 * (f1.price * f1.quantity)
    = p / 100 * (f1.price * f1.quantity)
  cases hside : t.positionSide with
  | LONG =>
    rw [if_pos rfl]
    exact pnl_stop_long f1.price f1.quantity p hf
  | SHORT =>
    rw [if_neg (show ¬(PositionSide.SHORT = PositionSide.LONG) by decide)]
    exact pnl_stop_short f1.price f1.quantity p hf

end Dialog

/-- C1: single-path stop-loss simulation, in both engines.  At a non-sentinel
level the stop triggers exactly when the maximum adverse excursion over the
round's bars (lowest low for LONG, highest high for SHORT, as a percentage of
the averaged entry price) reaches or exceeds the level; when it triggers the
final price is the theoretical stop price `entry × (1 ± p/100)` and the pnl is
`p/100 × entry × quantity` with `wouldHitStopLoss = true`; otherwise the real
exit price and outcome are used unchanged. -/
theorem singlePath_stopLoss :
    (∀ (p : ℚ) (m : Worker.PreparedMetric) (lows highs : List ℚ)
        (ts : List ℤ),
      p ≠ 0 → 0 < m.entryPrice → m.exitPrice ≠ 0 → m.quantity ≠ 0 →
      Worker.earlyGuard p m = false →
      m.klineLows = some lows → m.klineHighs = some highs →
      m.klineTimestamps = some ts →
      lows.length = highs.length → highs.length = ts.length → lows ≠ [] →
      ∃ d, Worker.simulateMetric p m = some d ∧
        (d.wouldHitStopLoss = true ↔ Worker.maeOf m lows highs ≤ p) ∧
        (d.wouldHitStopLoss = true →
          d.finalPrice = Worker.stopPriceOf p m ∧
          d.pnlAmount = p / 100 * (m.entryPrice * m.quantity)) ∧
        (d.wouldHitStopLoss = false →
          d.finalPrice = m.exitPrice ∧
          d.pnlAmount = (if m.positionSide = PositionSide.LONG
            then m.exitPrice - m.entryPrice
            else m.entryPrice - m.exitPrice) * m.quantity)) ∧
    (∀ (p : ℚ) (t : Dialog.RoundTrade) (klines : List KlineData)
        (opens : List Dialog.Fill),
      p ≠ 0 → 0 < t.avgEntryPrice → t.avgExitPrice ≠ 0 →
      t.totalQuantity ≠ 0 → klines.isEmpty = false →
      Dialog.earlyFires p t klines opens = false →
      ∃ d, Dialog.simulateTrade p t klines opens = some d ∧
        (d.wouldHitStopLoss = true ↔ Dialog.maxDrawdownRateOf t klines ≤ p) ∧
        (d.wouldHitStopLoss = true →
          d.finalPrice = Dialog.stopPriceFrom
            (decide (t.positionSide = PositionSide.LONG)) t.avgEntryPrice p ∧
          d.pnlAmount = p / 100 * (t.avgEntryPrice * t.totalQuantity)) ∧
        (d.wouldHitStopLoss = false →
          d.finalPrice = t.avgExitPrice ∧
          d.pnlAmount = (if t.positionSide = PositionSide.LONG
            then t.avgExitPrice - t.avgEntryPrice
            else t.avgEntryPrice - t.avgExitPrice) * t.totalQuantity)) := by
  constructor
  · intro p m lows highs ts hp hentry hexit hqty hearly hlows hhighs hts
      hlen1 hlen2 hne
    have hskip : ¬(m.entryPrice = 0 ∨ m.exitPrice = 0 ∨ m.quantity = 0) := by
      push_neg
      exact ⟨ne_of_gt hentry, hexit, hqty⟩
    have hneh : highs ≠ [] := by
      intro h
      subst h
      exact hne (List.length_eq_zero.mp (by simpa using hlen1))
    have hpath := Worker.simulateMetricPath_spec p m lows highs ts hlows
      hhighs hts hlen1 hlen2 (List.length_pos.mpr hne)
    have hiff := Worker.trigger_iff_mae p m lows highs ts.length hentry hne
      hneh (by omega) (by omega)
    rw [Worker.simulateMetric_eq_path p m hskip hp hearly, hpath]
    by_cases htrig : Worker.pathTriggered
        (decide (m.positionSide = PositionSide.LONG))
        (Worker.stopPriceOf p m) lows highs ts.length = true
    · rw [if_pos htrig]
      obtain ⟨hw, hf, hpnl⟩ := Worker.stopDetail_spec p m (ne_of_gt hentry)
      refine ⟨_, rfl, ?_, fun _ => ⟨hf, hpnl⟩, ?_⟩
      · rw [hw]
        exact iff_of_true rfl (hiff.mp htrig)
      · intro hcontr
        rw [hcontr] at hw
        exact absurd hw Bool.false_ne_true
    · rw [if_neg htrig]
      obtain ⟨hw, hf, hpnl⟩ := Worker.originalDetail_spec m (ne_of_gt hentry)
      refine ⟨_, rfl, ?_, ?_, fun _ => ⟨hf, hpnl⟩⟩
      · rw [hw]
        exact iff_of_false Bool.false_ne_true (fun hmae => htrig (hiff.mpr hmae))
      · intro hcontr
        rw [hw] at hcontr
        exact absurd hcontr Bool.false_ne_true
  · intro p t klines opens hp hentry hexit hqty hne hearly
    have hskip : ¬(t.avgEntryPrice = 0 ∨ t.avgExitPrice = 0 ∨
        t.totalQuantity = 0) := by
      push_neg
      exact ⟨ne_of_gt hentry, hexit, hqty⟩
    rw [Dialog.simulateTrade_single p t klines opens hskip hne hearly]
    obtain ⟨hiff, hhit, hmiss⟩ :=
      Dialog.singlePathDetail_spec p t klines (ne_of_gt hentry)
    refine ⟨_, rfl, hiff, fun hw => hhit (hiff.mp hw), fun hw =>
      hmiss (fun hmdd =>
        absurd ((hiff.mpr hmdd).symm.trans hw) (by decide))⟩

/-- Scenario B round for the worker engine: LONG, entry 100, exit 110,
quantity 1, a bar with low 94 on the path. -/
def mB : Worker.PreparedMetric :=
  { roundId := "r1", symbol := "BTCUSDT", positionSide := PositionSide.LONG,
    entryPrice := 100, exitPrice := 110, quantity := 1, realizedPnl := 10,
    openTime := 0, closeTime := 60000, maxDrawdownRate := -6,
    earlyFirstOpenPrice := none, earlyFirstOpenQty := none,
    earlyDrawdownRate := none, klineHighs := some [111],
    klineLows := some [94], klineTimestamps := some [0] }

/-- Scenario B: at level `-5` the round exits at 95 with pnl `-5` and
`wouldHitStopLoss = true`. -/
theorem singlePath_stopLoss_witness :
    ∃ d, Worker.simulateMetric (-5) mB = some d ∧
      d.wouldHitStopLoss = true ∧ d.finalPrice = 95 ∧ d.pnlAmount = -5 := by
  obtain ⟨d, hd, hiff, hhit, _⟩ := singlePath_stopLoss.1 (-5) mB [94] [111] [0]
    (by norm_num) (by show (0 : ℚ) < 100; norm_num)
    (by show ¬(110 : ℚ) = 0; norm_num) (by show ¬(1 : ℚ) = 0; norm_num)
    rfl rfl rfl rfl rfl rfl (by simp)
  have hmae : Worker.maeOf mB [94] [111] ≤ -5 := by
    show ((94 : ℚ) - 100) / 100 * 100 ≤ -5
    norm_num
  have hw : d.wouldHitStopLoss = true := hiff.mpr hmae
  obtain ⟨hf, hp⟩ := hhit hw
  refine ⟨d, hd, hw, ?_, ?_⟩
  · rw [hf]
    show (100 : ℚ) * (1 + (-5) / 100) = 95
    norm_num
  · rw [hp]
    show (-5 : ℚ) / 100 * (100 * 1) = -5
    norm_num

/-- A round whose realized pnl (7, e.g. after fees) differs from the price
difference times quantity (10), with no bars available. -/
def rt9 : Dialog.RoundTrade :=
  { roundId := "r9", symbol := "BTCUSDT", positionSide := PositionSide.LONG,
    totalQuantity := 1, avgEntryPrice := 100, avgExitPrice := 110,
    realizedPnl := 7, openTime := 0, closeTime := 60000, openTradeIds := [] }

/-- C9 counterexample: at the dialog's sentinel level the no-bar fallback
reports the round's `realizedPnl` (7), not the sign-adjusted
`(exit - entry) × quantity` (10) that the claim prescribes for every round. -/
theorem sentinel_pnl_counterexample :
    ∃ d, Dialog.simulateTrade (-999) rt9 [] [] = some d ∧
      d.wouldHitStopLoss = false ∧ d.pnlAmount = 7 ∧
      (rt9.avgExitPrice - rt9.avgEntryPrice) * rt9.totalQuantity = 10 ∧
      (7 : ℚ) ≠ 10 := by
  have hskip : ¬(rt9.avgEntryPrice = 0 ∨ rt9.avgExitPrice = 0 ∨
      rt9.totalQuantity = 0) := by
    push_neg
    refine ⟨?_, ?_, ?_⟩
    · show ¬(100 : ℚ) = 0
      norm_num
    · show ¬(110 : ℚ) = 0
      norm_num
    · show ¬(1 : ℚ) = 0
      norm_num
  rw [Dialog.simulateTrade_fallback (-999) rt9 [] hskip]
  refine ⟨_, rfl, rfl, rfl, ?_, by norm_num⟩
  show ((110 : ℚ) - 100) * 1 = 10
  norm_num

/-- C9 as amended: the worker's sentinel (`percentage = 0`, mapped from
`-999` upstream) always yields `wouldHitStopLoss = false` and pnl computed
directly from `(exit - entry)` sign-adjusted times quantity on every
processed round; in the dialog, where the sentinel is the raw `-999` level
with no special-casing, the same holds provided bars are available and the
round's adverse excursion stays below the `-999` thresholds, while with no
bars the fallback reports the round's `realizedPnl` with
`wouldHitStopLoss = false`. -/
theorem sentinel_no_stop :
    (∀ m : Worker.PreparedMetric,
      m.entryPrice ≠ 0 → m.exitPrice ≠ 0 → m.quantity ≠ 0 →
      ∃ d, Worker.simulateMetric 0 m = some d ∧
        d.wouldHitStopLoss = false ∧ d.finalPrice = m.exitPrice ∧
        d.pnlAmount = (if m.positionSide = PositionSide.LONG
          then m.exitPrice - m.entryPrice
          else m.entryPrice - m.exitPrice) * m.quantity) ∧
    (∀ (t : Dialog.RoundTrade) (klines : List KlineData)
        (opens : List Dialog.Fill),
      0 < t.avgEntryPrice → t.avgExitPrice ≠ 0 → t.totalQuantity ≠ 0 →
      klines.isEmpty = false →
      Dialog.earlyFires (-999) t klines opens = false →
      ¬(Dialog.maxDrawdownRateOf t klines ≤ -999) →
      ∃ d, Dialog.simulateTrade (-999) t klines opens = some d ∧
        d.wouldHitStopLoss = false ∧ d.finalPrice = t.avgExitPrice ∧
        d.pnlAmount = (if t.positionSide = PositionSide.LONG
          then t.avgExitPrice - t.avgEntryPrice
          else t.avgEntryPrice - t.avgExitPrice) * t.totalQuantity) ∧
    (∀ (t : Dialog.RoundTrade) (opens : List Dialog.Fill),
      t.avgEntryPrice ≠ 0 → t.avgExitPrice ≠ 0 → t.totalQuantity ≠ 0 →
      ∃ d, Dialog.simulateTrade (-999) t [] opens = some d ∧
        d.wouldHitStopLoss = false ∧ d.pnlAmount = t.realizedPnl) := by
  refine ⟨?_, ?_, ?_⟩
  · intro m he hx hq
    have hskip : ¬(m.entryPrice = 0 ∨ m.exitPrice = 0 ∨ m.quantity = 0) := by
      push_neg
      exact ⟨he, hx, hq⟩
    rw [Worker.simulateMetric_sentinel m hskip]
    obtain ⟨hw, hf, hpnl⟩ := Worker.originalDetail_spec m he
    exact ⟨_, rfl, hw, hf, hpnl⟩
  · intro t klines opens he hx hq hne hearly hmdd
    have hskip : ¬(t.avgEntryPrice = 0 ∨ t.avgExitPrice = 0 ∨
        t.totalQuantity = 0) := by
      push_neg
      exact ⟨ne_of_gt he, hx, hq⟩
    rw [Dialog.simulateTrade_single (-999) t klines opens hskip hne hearly]
    obtain ⟨hiff, _, hmiss⟩ :=
      Dialog.singlePathDetail_spec (-999) t klines (ne_of_gt he)
    obtain ⟨hf, hpnl⟩ := hmiss hmdd
    refine ⟨_, rfl, ?_, hf, hpnl⟩
    cases hwb : (Dialog.singlePathDetail (-999) t klines).wouldHitStopLoss
    · rfl
    · exact absurd (hiff.mp hwb) hmdd
  · intro t opens he hx hq
    have hskip : ¬(t.avgEntryPrice = 0 ∨ t.avgExitPrice = 0 ∨
        t.totalQuantity = 0) := by
      push_neg
      exact ⟨he, hx, hq⟩
    rw [Dialog.simulateTrade_fallback (-999) t opens hskip]
    exact ⟨_, rfl, rfl, rfl⟩

/-- Concrete instances of the amended sentinel claim: the worker sentinel on
the Scenario A/B round yields the real outcome with pnl `+10`, and the
dialog's no-bar fallback returns the realized pnl. -/
theorem sentinel_no_stop_witness :
    (∃ d, Worker.simulateMetric 0 mB = some d ∧
      d.wouldHitStopLoss = false ∧ d.finalPrice = 110 ∧ d.pnlAmount = 10) ∧
    (∃ d, Dialog.simulateTrade (-999) rt9 [] [] = some d ∧
      d.wouldHitStopLoss = false ∧ d.pnlAmount = 7) := by
  constructor
  · obtain ⟨d, hd, hw, hf, hpnl⟩ := sentinel_no_stop.1 mB
      (by show ¬(100 : ℚ) = 0; norm_num) (by show ¬(110 : ℚ) = 0; norm_num)
      (by show ¬(1 : ℚ) = 0; norm_num)
    refine ⟨d, hd, hw, by rw [hf]; rfl, ?_⟩
    rw [hpnl]
    show (if mB.positionSide = PositionSide.LONG
      then mB.exitPrice - mB.entryPrice
      else mB.entryPrice - mB.exitPrice) * mB.quantity = 10
    show ((110 : ℚ) - 100) * 1 = 10
    norm_num
  · obtain ⟨d, hd, hw, hpnl⟩ := sentinel_no_stop.2.2 rt9 []
      (by show ¬(100 : ℚ) = 0; norm_num) (by show ¬(110 : ℚ) = 0; norm_num)
      (by show ¬(1 : ℚ) = 0; norm_num)
    exact ⟨d, hd, hw, hpnl⟩

namespace Worker

lemma earlyDetail_spec (p : ℚ) (m : PreparedMetric)
    (firstPrice firstQty edr : ℚ) (hf : firstPrice ≠ 0) :
    (earlyDetail p m firstPrice firstQty edr).wouldHitStopLoss = true ∧
    (earlyDetail p m firstPrice firstQty edr).entryPrice = firstPrice ∧
    (earlyDetail p m firstPrice firstQty edr).quantity = firstQty ∧
    (earlyDetail p m firstPrice firstQty edr).finalPrice =
      (if m.positionSide = PositionSide.LONG
       then firstPrice * (1 + p / 100) else firstPrice * (1 - p / 100)) ∧
    (earlyDetail p m firstPrice firstQty edr).pnlAmount =
      p / 100 * (firstPrice * firstQty) := by
  refine ⟨rfl, rfl, rfl, rfl, ?_⟩
  show (if m.positionSide = PositionSide.LONG
      then ((if m.positionSide = PositionSide.LONG
             then firstPrice * (1 + p / 100)
             else firstPrice * (1 - p / 100)) - firstPrice)
            / firstPrice * 100
      else (firstPrice - (if m.positionSide = PositionSide.LONG
             then firstPrice * (1 + p / 100)
             else firstPrice * (1 - p / 100)))
            / firstPrice * 100) / 100 * (firstPrice * firstQty)
    = p / 100 * (firstPrice * firstQty)
  cases hside : m.positionSide with
  | LONG =>
    rw [if_pos rfl, if_pos rfl]
    exact pnl_stop_long firstPrice firstQty p hf
  | SHORT =>
    rw [if_neg (show ¬(PositionSide.SHORT = PositionSide.LONG) by decide),
      if_neg (show ¬(PositionSide.SHORT = PositionSide.LONG) by decide)]
    exact pnl_stop_short firstPrice firstQty p hf

end Worker

/-- A multi-leg round: averaged entry 95, exit 100, two opening fills. -/
def rt3 : Dialog.RoundTrade :=
  { roundId := "r3", symbol := "BTCUSDT", positionSide := PositionSide.LONG,
    totalQuantity := 2, avgEntryPrice := 95, avgExitPrice := 100,
    realizedPnl := 10, openTime := 1000, closeTime := 5000,
    openTradeIds := ["a", "b"] }

/-- First opening fill: 100 at quantity 1, timestamp 1000. -/
def f31 : Dialog.Fill := { price := 100, quantity := 1, timestamp := 1000 }

/-- Second opening fill: 90 at quantity 1, timestamp 2000. -/
def f32 : Dialog.Fill := { price := 90, quantity := 1, timestamp := 2000 }

/-- A bar whose open time equals the first fill's timestamp and whose close
time equals the second fill's timestamp — not *strictly* between them — with
a low of 91 crossing the first-fill stop 92 (but not the single-path stop
87.4 on the averaged entry 95). -/
def bar3 : KlineData :=
  { openTime := 1000, closeTime := 2000, open_ := 100, high := 100, low := 91,
    close := 95 }

lemma rt3_skip : ¬(rt3.avgEntryPrice = 0 ∨ rt3.avgExitPrice = 0 ∨
    rt3.totalQuantity = 0) := by
  push_neg
  refine ⟨?_, ?_, ?_⟩
  · show ¬(95 : ℚ) = 0
    norm_num
  · show ¬(100 : ℚ) = 0
    norm_num
  · show ¬(2 : ℚ) = 0
    norm_num

/-- C3 counterexample: the early-stop scan is not restricted to bars strictly
between the two fill timestamps — `bar3`, whose open/close times coincide
with the fill timestamps, is scanned and triggers the stop, so the round
closes at 92 with the first fill's quantity even though the single-path
excursion (≈ -4.2%) never reaches -8 and the claim's strict reading would
keep the real exit of 100. -/
theorem multiLeg_strict_counterexample :
    ∃ d, Dialog.simulateTrade (-8) rt3 [bar3] [f31, f32] = some d ∧
      d.wouldHitStopLoss = true ∧ d.finalPrice = 92 ∧ d.quantity = 1 ∧
      d.entryPrice = 100 ∧ d.finalPrice ≠ rt3.avgExitPrice ∧
      ¬(Dialog.maxDrawdownRateOf rt3 [bar3] ≤ -8) := by
  have hhit : Dialog.earlyHitOn
      (decide (rt3.positionSide = PositionSide.LONG))
      (Dialog.stopPriceFrom (decide (rt3.positionSide = PositionSide.LONG))
        f31.price (-8))
      (Dialog.betweenK [bar3] f31.timestamp f32.timestamp) = true := by
    show decide ((91 : ℚ) ≤ 100 * (1 + (-8) / 100)) = true
    exact decide_eq_true (by norm_num)
  rw [Dialog.simulateTrade_early (-8) rt3 [bar3] f31 f32 [] rt3_skip rfl
    (le_refl 2) hhit]
  obtain ⟨hw, hent, hq, hf, _⟩ := Dialog.earlyDetailD_spec (-8) rt3 f31
    (Dialog.betweenK [bar3] f31.timestamp f32.timestamp)
    (by show ¬(100 : ℚ) = 0; norm_num)
  have hf92 : (Dialog.earlyDetail (-8) rt3 f31
      (Dialog.betweenK [bar3] f31.timestamp f32.timestamp)).finalPrice = 92 := by
    rw [hf]
    show (100 : ℚ) * (1 + (-8) / 100) = 92
    norm_num
  refine ⟨_, rfl, hw, hf92, hq, hent, ?_, ?_⟩
  · rw [hf92]
    show (92 : ℚ) ≠ 100
    norm_num
  · show ¬(((91 : ℚ) - 95) / 95 * 100 ≤ -8)
    norm_num

/-- C3 as amended: in both engines, a round with at least two opening fills
whose stop condition between the first two fills is met closes at the stop
price computed from the *first* fill's price and the level, using only the
first fill's quantity, with `wouldHitStopLoss = true`, taking precedence over
the single-path case and independent of anything after the second fill.  In
the dialog the scanned bars are those whose open time is **at or after** the
first fill's timestamp and whose close time is **at or before** the second
fill's (not strictly between, as the counterexample shows); in the worker the
between-fills excursion arrives precomputed as `earlyDrawdownRate`. -/
theorem multiLeg_early_stop :
    (∀ (p : ℚ) (m : Worker.PreparedMetric) (edr firstPrice firstQty : ℚ),
      p ≠ 0 → m.entryPrice ≠ 0 → m.exitPrice ≠ 0 → m.quantity ≠ 0 →
      firstPrice ≠ 0 →
      m.earlyDrawdownRate = some edr →
      m.earlyFirstOpenPrice = some firstPrice →
      m.earlyFirstOpenQty = some firstQty →
      edr ≤ p →
      ∃ d, Worker.simulateMetric p m = some d ∧
        d.wouldHitStopLoss = true ∧ d.entryPrice = firstPrice ∧
        d.quantity = firstQty ∧
        d.finalPrice = (if m.positionSide = PositionSide.LONG
          then firstPrice * (1 + p / 100)
          else firstPrice * (1 - p / 100)) ∧
        d.pnlAmount = p / 100 * (firstPrice * firstQty)) ∧
    (∀ (p : ℚ) (t : Dialog.RoundTrade) (klines : List KlineData)
        (f1 f2 : Dialog.Fill) (rest : List Dialog.Fill),
      t.avgEntryPrice ≠ 0 → t.avgExitPrice ≠ 0 → t.totalQuantity ≠ 0 →
      f1.price ≠ 0 → klines.isEmpty = false → 2 ≤ t.openTradeIds.length →
      Dialog.earlyHitOn (decide (t.positionSide = PositionSide.LONG))
        (Dialog.stopPriceFrom (decide (t.positionSide = PositionSide.LONG))
          f1.price p)
        (Dialog.betweenK klines f1.timestamp f2.timestamp) = true →
      ∃ d, Dialog.simulateTrade p t klines (f1 :: f2 :: rest) = some d ∧
        d.wouldHitStopLoss = true ∧ d.entryPrice = f1.price ∧
        d.quantity = f1.quantity ∧
        d.finalPrice = Dialog.stopPriceFrom
          (decide (t.positionSide = PositionSide.LONG)) f1.price p ∧
        d.pnlAmount = p / 100 * (f1.price * f1.quantity)) := by
  constructor
  · intro p m edr firstPrice firstQty hp he hx hq hf hedr hfp hfq hle
    have hskip : ¬(m.entryPrice = 0 ∨ m.exitPrice = 0 ∨ m.quantity = 0) := by
      push_neg
      exact ⟨he, hx, hq⟩
    rw [Worker.simulateMetric_early p m edr firstPrice firstQty hskip hp
      hedr hfp hfq hle]
    obtain ⟨hw, hent, hqty, hfin, hpnl⟩ :=
      Worker.earlyDetail_spec p m firstPrice firstQty edr hf
    exact ⟨_, rfl, hw, hent, hqty, hfin, hpnl⟩
  · intro p t klines f1 f2 rest he hx hq hf hne hids hhit
    have hskip : ¬(t.avgEntryPrice = 0 ∨ t.avgExitPrice = 0 ∨
        t.totalQuantity = 0) := by
      push_neg
      exact ⟨he, hx, hq⟩
    rw [Dialog.simulateTrade_early p t klines f1 f2 rest hskip hne hids hhit]
    obtain ⟨hw, hent, hqty, hfin, hpnl⟩ := Dialog.earlyDetailD_spec p t f1
      (Dialog.betweenK klines f1.timestamp f2.timestamp) hf
    exact ⟨_, rfl, hw, hent, hqty, hfin, hpnl⟩

/-- A bar strictly between the two fills of `rt3`, low 91. -/
def barC : KlineData :=
  { openTime := 1200, closeTime := 1800, open_ := 95, high := 96, low := 91,
    close := 95 }

/-- Scenario C: first fill 100@1 at t0, second 90@1 at t1, level `-8`, a bar
between them with low 91 crossing 92 ⇒ the round closes at 92 using the first
fill's quantity only. -/
theorem multiLeg_early_stop_witness :
    ∃ d, Dialog.simulateTrade (-8) rt3 [barC] [f31, f32] = some d ∧
      d.wouldHitStopLoss = true ∧ d.entryPrice = 100 ∧ d.quantity = 1 ∧
      d.finalPrice = 92 ∧ d.pnlAmount = -8 := by
  obtain ⟨d, hd, hw, hent, hq, hfin, hpnl⟩ :=
    multiLeg_early_stop.2 (-8) rt3 [barC] f31 f32 []
      (by show ¬(95 : ℚ) = 0; norm_num) (by show ¬(100 : ℚ) = 0; norm_num)
      (by show ¬(2 : ℚ) = 0; norm_num) (by show ¬(100 : ℚ) = 0; norm_num)
      rfl (le_refl 2)
      (by show decide ((91 : ℚ) ≤ 100 * (1 + (-8) / 100)) = true
          exact decide_eq_true (by norm_num))
  refine ⟨d, hd, hw, by rw [hent]; rfl, by rw [hq]; rfl, ?_, ?_⟩
  · rw [hfin]
    show (100 : ℚ) * (1 + (-8) / 100) = 92
    norm_num
  · rw [hpnl]
    show (-8 : ℚ) / 100 * (100 * 1) = -8
    norm_num
